import Mathlib

/-!
Verification model of the organization/building/activity catalog service.

The store is modelled as lists of table rows.  Each service method becomes a
function `Store → Store × Except String r`: the returned store is the state
visible after the call, taking the transactional behaviour of the per-request
session into account (an uncommitted unit of work is rolled back when the
service raises, so single-commit operations return the original store together
with the error; `create_organization` commits twice and is modelled
accordingly).  Integer ids and levels are `Nat` (generated primary keys are
positive), coordinates are `Rat`.  Two boundary dependencies are parameters:
the geodesic distance function of the external geo library (`dist`) and the
SQL-evaluated `cos(radians(x))` (`cosRad`).  Unbounded `while`/recursion in
the source is modelled with an explicit fuel argument that is large enough on
every store on which the source terminates; exhaustion is an error value that
the development shows unreachable under the stated invariants.
-/

set_option maxHeartbeats 1000000

namespace RestCatalog

/-- Row of table `activities` (app/models/models.py): id, name,
nullable self-referential parent_id, level. -/
structure Activity where
  id : Nat
  name : String
  parent_id : Option Nat
  level : Nat
  deriving Repr, DecidableEq

/-- Row of table `buildings`: id, address, latitude, longitude. -/
structure Building where
  id : Nat
  address : String
  latitude : Rat
  longitude : Rat
  deriving Repr, DecidableEq

/-- Row of table `organizations`: id, name, building_id (required FK). -/
structure Organization where
  id : Nat
  name : String
  building_id : Nat
  deriving Repr, DecidableEq

/-- Row of table `organization_phones`. -/
structure OrganizationPhone where
  id : Nat
  organization_id : Nat
  phone_number : String
  deriving Repr, DecidableEq

/-- The relational store: one list per table.  `organization_activity` is the
association table, a list of (organization_id, activity_id) pairs. -/
structure Store where
  buildings : List Building
  activities : List Activity
  organizations : List Organization
  organization_phones : List OrganizationPhone
  organization_activity : List (Nat × Nat)
  deriving Repr, DecidableEq

/-- Payload of schema `ActivityCreate` (app/api/v1/schemas.py): name,
optional parent_id and a client-supplied level (which the service always
overwrites). -/
structure ActivityCreate where
  name : String
  parent_id : Option Nat
  level : Nat
  deriving Repr, DecidableEq

/-- Payload of schema `OrganizationCreate`. -/
structure OrganizationCreate where
  name : String
  building_id : Nat
  phone_numbers : List String
  activity_ids : List Nat
  deriving Repr, DecidableEq

/-- Payload of schema `SearchFilters`. -/
structure SearchFilters where
  building_id : Option Nat
  activity_id : Option Nat
  name_query : Option String
  include_child_activities : Bool
  deriving Repr, DecidableEq

/-- `GeoSearchType` enumeration of schema `GeoSearchSchema`. -/
inductive GeoSearchType where
  | radius
  | rectangle
  deriving Repr, DecidableEq, BEq

/-- Payload of schema `GeoSearchSchema` before its model validator runs:
all mode-specific fields are optional. -/
structure GeoSearchSchema where
  latitude : Rat
  longitude : Rat
  search_type : GeoSearchType
  radius_km : Option Rat
  north_lat : Option Rat
  south_lat : Option Rat
  east_lng : Option Rat
  west_lng : Option Rat
  deriving Repr, DecidableEq

/-- Python truthiness of an optional integer: both None and 0 are falsy.
The services test `if activity_data.parent_id:` and the like, so an explicit
id 0 behaves exactly like an absent id. -/
def truthyId : Option Nat → Bool
  | none => false
  | some n => n != 0

/-- Python truthiness of an optional string: None and "" are falsy. -/
def truthyStr : Option String → Bool
  | none => false
  | some q => !q.isEmpty

/-- `SELECT ... WHERE id = i` returning at most one row; ids are unique in a
real table, the development tracks that as a `Nodup` hypothesis. -/
def findAct (acts : List Activity) (i : Nat) : Option Activity :=
  acts.find? (fun a => a.id == i)

/-- Building lookup by primary key. -/
def findBuilding (s : Store) (i : Nat) : Option Building :=
  s.buildings.find? (fun b => b.id == i)

/-! ## Activity service (app/api/v1/services/activity_service.py) -/

/-- `ActivityService.create_activity` (lines 108-148).  Validates the parent
(truthily), forces the level from the parent (or 1), checks
(name, parent_id) uniqueness, then inserts with a fresh generated id. -/
def create_activity (s : Store) (newId : Nat) (d : ActivityCreate) :
    Store × Except String Activity :=
  let levelRes : Except String Nat :=
    if truthyId d.parent_id then
      match findAct s.activities (d.parent_id.getD 0) with
      | none => .error "parent activity not found"
      | some parent =>
        if 3 ≤ parent.level then .error "maximum nesting depth of 3 reached"
        else .ok (parent.level + 1)
    else .ok 1
  match levelRes with
  | .error e => (s, .error e)
  | .ok lvl =>
    if s.activities.any (fun b => b.name == d.name && b.parent_id == d.parent_id) then
      (s, .error "activity with this name already exists at this level")
    else
      let a : Activity := ⟨newId, d.name, d.parent_id, lvl⟩
      ({ s with activities := s.activities ++ [a] }, .ok a)

/-- Loop body of `ActivityService._would_create_cycle` (lines 275-288): walk
up the parent chain from `cur`; report a cycle when `aid` is reached.  The
`while current_id:` test makes 0 terminate the walk like None.  The source
loops forever on a cyclic chain; the fuel is large enough for every
terminating walk, and the theorems only use acyclic stores. -/
def wccAux (acts : List Activity) : Nat → Nat → Nat → Bool
  | 0, _, _ => true
  | fuel + 1, aid, cur =>
    if cur == 0 then false
    else if cur == aid then true
    else
      match findAct acts cur with
      | none => false
      | some a =>
        match a.parent_id with
        | none => false
        | some p => wccAux acts fuel aid p

/-- `ActivityService._would_create_cycle`. -/
def would_create_cycle (s : Store) (aid pid : Nat) : Bool :=
  wccAux s.activities (s.activities.length + 4) aid pid

/-- In-session update of one row's level (the ORM mutates the identity-mapped
object; ids are unique, so at most one element changes). -/
def setLevel (acts : List Activity) (i lvl : Nat) : List Activity :=
  acts.map (fun a => if a.id == i then { a with level := lvl } else a)

/-- The `for child in children:` loop of
`ActivityService._update_children_levels` (lines 303-309): set each child's
level to parent.level + 1 when that stays within 3 (recursing via `rec` into
the child), otherwise raise.  `rec` is the recursive call at the next fuel. -/
def ucl_go (rec : List Activity → Nat → Except String (List Activity)) (plvl : Nat) :
    List Activity → List Activity → Except String (List Activity)
  | [], acts => .ok acts
  | k :: ks, acts =>
    if plvl + 1 ≤ 3 then
      match rec (setLevel acts k.id (plvl + 1)) k.id with
      | .error e => .error e
      | .ok acts2 => ucl_go rec plvl ks acts2
    else .error ("updating level for activity " ++ k.name ++ " would exceed maximum depth")

/-- `ActivityService._update_children_levels` (lines 290-309) with fuel.
Each recursive call happens only after setting the child's level to
parent.level + 1 ≤ 3, so the recursion depth is bounded by the level values
and fuel 4 is never exhausted on a store with unique ids. -/
def update_children_levels : Nat → List Activity → Nat → Except String (List Activity)
  | 0, _, _ => .error "recursion fuel exhausted"
  | fuel + 1, acts, pid =>
    match findAct acts pid with
    | none => .ok acts
    | some parent =>
      ucl_go (update_children_levels fuel) parent.level
        (acts.filter (fun a => a.parent_id == some pid)) acts

/-- The in-session assignment of the three updated fields of the target row
(`activity.name = ...`, `activity.parent_id = ...`, `activity.level = ...`). -/
def modifyAct (acts : List Activity) (aid : Nat) (nm : String) (np : Option Nat)
    (lvl : Nat) : List Activity :=
  acts.map (fun b =>
    if b.id == aid then { b with name := nm, parent_id := np, level := lvl } else b)

/-- `ActivityService.update_activity` (lines 150-200).  Missing target: no
result.  Truthy new parent: cycle check, parent existence, depth < 3, level
from parent; otherwise level 1.  Then (name, parent_id) uniqueness excluding
the row itself, field update, and subtree level recomputation.  Any raise
rolls the open unit of work back to the original store. -/
def update_activity (s : Store) (aid : Nat) (d : ActivityCreate) :
    Store × Except String (Option Activity) :=
  match findAct s.activities aid with
  | none => (s, .ok none)
  | some _ =>
    let levelRes : Except String Nat :=
      if truthyId d.parent_id then
        if would_create_cycle s aid (d.parent_id.getD 0) then
          .error "update would create a circular dependency"
        else
          match findAct s.activities (d.parent_id.getD 0) with
          | none => .error "parent activity not found"
          | some parent =>
            if 3 ≤ parent.level then .error "maximum nesting depth of 3 reached"
            else .ok (parent.level + 1)
      else .ok 1
    match levelRes with
    | .error e => (s, .error e)
    | .ok lvl =>
      if s.activities.any (fun b =>
          b.name == d.name && b.parent_id == d.parent_id && b.id != aid) then
        (s, .error "activity with this name already exists at this level")
      else
        match update_children_levels 4 (modifyAct s.activities aid d.name d.parent_id lvl) aid with
        | .error e => (s, .error e)
        | .ok acts2 => ({ s with activities := acts2 }, .ok (findAct acts2 aid))

/-- `ActivityService.delete_activity` (lines 202-233).  Refuses while any
organization is associated (count over the join with the association table)
or any child exists; otherwise deletes the row (the ORM also sweeps its
association rows). -/
def delete_activity (s : Store) (aid : Nat) : Store × Except String Bool :=
  match findAct s.activities aid with
  | none => (s, .ok false)
  | some _ =>
    let orgCount := (s.organization_activity.filter (fun pr =>
      pr.2 == aid && s.organizations.any (fun o => o.id == pr.1))).length
    if 0 < orgCount then
      (s, .error "cannot delete an activity that has organizations attached")
    else
      let childCount := (s.activities.filter (fun a => a.parent_id == some aid)).length
      if 0 < childCount then
        (s, .error "cannot delete an activity that has children")
      else
        ({ s with
            activities := s.activities.filter (fun a => a.id != aid),
            organization_activity := s.organization_activity.filter (fun pr => pr.2 != aid) },
         .ok true)

/-! ## Building service (app/api/v1/services/building_service.py) -/

/-- `BuildingService.delete_building` (lines 92-113).  Missing target: false.
Refuses while any organization references the building; otherwise deletes. -/
def delete_building (s : Store) (bid : Nat) : Store × Except String Bool :=
  match findBuilding s bid with
  | none => (s, .ok false)
  | some _ =>
    let orgCount := (s.organizations.filter (fun o => o.building_id == bid)).length
    if 0 < orgCount then
      (s, .error "cannot delete a building that has organizations")
    else
      ({ s with buildings := s.buildings.filter (fun b => b.id != bid) }, .ok true)

/-! ## SQL LIKE matching

`Organization.name.ilike(pattern)` is executed by the database: the pattern
is matched case-insensitively, `%` matches any sequence, `_` any single
character, and a backslash escapes the following character so it is matched
literally.  This models that boundary semantics over character lists. -/

/-- Case-insensitive LIKE matching with backslash escapes. -/
def likeMatches : List Char → List Char → Bool
  | [], t => t.isEmpty
  | '%' :: ps, t => t.tails.any (fun u => likeMatches ps u)
  | '_' :: ps, t =>
    match t with
    | [] => false
    | _ :: t2 => likeMatches ps t2
  | '\\' :: c :: ps, t =>
    match t with
    | [] => false
    | c2 :: t2 => (c2.toLower == c.toLower) && likeMatches ps t2
  | c :: ps, t =>
    match t with
    | [] => false
    | c2 :: t2 => (c2.toLower == c.toLower) && likeMatches ps t2

/-- One character of the query escaped as in
`name_query.replace(chr(37), ...).replace(chr(95), ...)` of
`OrganizationService.search_organizations_by_name` (line 77): the two
sequential single-character replacements amount to this per-character map. -/
def escapeLikeChar (c : Char) : List Char :=
  if c = '%' ∨ c = '_' then ['\\', c] else [c]

/-- The escaped query `safe_query`. -/
def escapeLike (q : String) : List Char :=
  q.data.flatMap escapeLikeChar

/-! ## Organization service (app/api/v1/services/organization_service.py) -/

/-- `OrganizationService.search_organizations_by_name` (lines 74-92):
escape the query, match `ilike(percent safe_query percent)`, paginate. -/
def search_organizations_by_name (s : Store) (q : String) (skip limit : Nat) :
    List Organization :=
  ((s.organizations.filter (fun o =>
      likeMatches ('%' :: (escapeLike q ++ ['%'])) o.name.data)).drop skip).take limit

/-- The compound truthiness test
`geo_search.search_type == "radius" and geo_search.radius_km` used twice in
`geo_search_organizations` (lines 101 and 131). -/
def radius_active (g : GeoSearchSchema) : Bool :=
  (g.search_type == GeoSearchType.radius) &&
    (match g.radius_km with
     | none => false
     | some r => !(r == 0))

/-- The store-level candidate query of
`OrganizationService.geo_search_organizations` (lines 95-124): organizations
inner-joined to their building, with the approximate bounding-box filter in
radius mode and the exact bounds filter in rectangle mode.  A rectangle
request with a missing bound compares against SQL NULL and yields no rows
(unreachable behind the schema validator). -/
def geoCandidates (cosRad : Rat → Rat) (s : Store) (g : GeoSearchSchema) :
    List Organization :=
  let rows := s.organizations.filterMap (fun o =>
    (findBuilding s o.building_id).map (fun b => (o, b)))
  let rows :=
    if radius_active g then
      let r := g.radius_km.getD 0
      let latDelta := r / 111
      let lngDelta := r / (111 * cosRad g.latitude)
      rows.filter (fun ob =>
        decide (g.latitude - latDelta ≤ ob.2.latitude) &&
        decide (ob.2.latitude ≤ g.latitude + latDelta) &&
        decide (g.longitude - lngDelta ≤ ob.2.longitude) &&
        decide (ob.2.longitude ≤ g.longitude + lngDelta))
    else if g.search_type == GeoSearchType.rectangle then
      match g.north_lat, g.south_lat, g.east_lng, g.west_lng with
      | some n, some sl, some e, some w =>
        rows.filter (fun ob =>
          decide (sl ≤ ob.2.latitude) && decide (ob.2.latitude ≤ n) &&
          decide (w ≤ ob.2.longitude) && decide (ob.2.longitude ≤ e))
      | _, _, _, _ => []
    else rows
  rows.map Prod.fst

/-- The fetched page: `query.offset(skip).limit(limit)` (line 126) applied to
the candidate query, before any exact-distance narrowing. -/
def geoPrefilterPage (cosRad : Rat → Rat) (s : Store) (g : GeoSearchSchema)
    (skip limit : Nat) : List Organization :=
  ((geoCandidates cosRad s g).drop skip).take limit

/-- `OrganizationService.geo_search_organizations` (lines 94-143): fetch the
page, then in radius mode keep only organizations whose resolved building is
within `radius_km` by the exact distance function (skipping rows whose
building does not resolve). -/
def geo_search_organizations (cosRad : Rat → Rat)
    (dist : Rat → Rat → Rat → Rat → Rat) (s : Store) (g : GeoSearchSchema)
    (skip limit : Nat) : List Organization :=
  let organizations := geoPrefilterPage cosRad s g skip limit
  if radius_active g then
    organizations.filter (fun o =>
      match findBuilding s o.building_id with
      | some b =>
        decide (dist g.latitude g.longitude b.latitude b.longitude ≤ g.radius_km.getD 0)
      | none => false)
  else organizations

/-- `OrganizationService.create_organization` (lines 145-197).  The bare
organization is committed first; the activity resolution (with its
all-or-nothing count check) and the phone inserts happen before a second
commit, so a raise in between rolls back only to the first commit point and
the bare organization stays persisted. -/
def create_organization (s : Store) (newOrgId phoneIdBase : Nat)
    (d : OrganizationCreate) : Store × Except String Nat :=
  match findBuilding s d.building_id with
  | none => (s, .error "building not found")
  | some _ =>
    let org : Organization := ⟨newOrgId, d.name, d.building_id⟩
    let s1 := { s with organizations := s.organizations ++ [org] }
    let withActs : Except String Store :=
      if d.activity_ids.isEmpty then .ok s1
      else
        let matched := s1.activities.filter (fun a => d.activity_ids.contains a.id)
        if matched.length == d.activity_ids.length then
          .ok { s1 with organization_activity :=
                  s1.organization_activity ++ matched.map (fun a => (newOrgId, a.id)) }
        else .error "one or more activities not found"
    match withActs with
    | .error e => (s1, .error e)
    | .ok s2 =>
      let s3 :=
        if d.phone_numbers.isEmpty then s2
        else { s2 with organization_phones :=
                 s2.organization_phones ++ d.phone_numbers.enum.map (fun pr =>
                   ⟨phoneIdBase + pr.1, newOrgId, pr.2⟩) }
      (s3, .ok newOrgId)

/-- `OrganizationService.delete_organization` (lines 256-276): missing target
gives false; otherwise the owned phones are deleted explicitly, then the row
(association rows go with it). -/
def delete_organization (s : Store) (oid : Nat) : Store × Except String Bool :=
  match s.organizations.find? (fun o => o.id == oid) with
  | none => (s, .ok false)
  | some _ =>
    ({ s with
        organization_phones := s.organization_phones.filter (fun p => p.organization_id != oid),
        organizations := s.organizations.filter (fun o => o.id != oid),
        organization_activity := s.organization_activity.filter (fun pr => pr.1 != oid) },
     .ok true)

/-- The inner `get_children_recursive` of
`OrganizationService._get_activity_with_children` (lines 302-312), with fuel
(the source recursion is unbounded and relies on the 3-level invariant). -/
def get_children_recursive : Nat → Store → Nat → List Nat
  | 0, _, _ => []
  | fuel + 1, s, pid =>
    let kids := (s.activities.filter (fun a => a.parent_id == some pid)).map (fun a => a.id)
    kids ++ kids.flatMap (fun cid => get_children_recursive fuel s cid)

/-- `OrganizationService._get_activity_with_children` (lines 300-317). -/
def get_activity_with_children (s : Store) (aid : Nat) : List Nat :=
  aid :: get_children_recursive (s.activities.length + 4) s aid

/-- `OrganizationService.get_organizations_count` (lines 278-298): count of
organization rows after the truthy filters; the activity filter is a join
(so an organization is counted once per matching association row), and the
name filter interpolates the query into the pattern without escaping. -/
def get_organizations_count (s : Store) (filters : Option SearchFilters) : Nat :=
  match filters with
  | none => s.organizations.length
  | some f =>
    let rows := s.organizations
    let rows :=
      if truthyId f.building_id then
        rows.filter (fun o => o.building_id == f.building_id.getD 0)
      else rows
    let rows :=
      if truthyId f.activity_id then
        let ids :=
          if f.include_child_activities then
            get_activity_with_children s (f.activity_id.getD 0)
          else [f.activity_id.getD 0]
        rows.flatMap (fun o =>
          (s.organization_activity.filter (fun pr =>
            pr.1 == o.id && ids.contains pr.2 &&
              s.activities.any (fun a => a.id == pr.2))).map (fun _ => o))
      else rows
    let rows :=
      if truthyStr f.name_query then
        rows.filter (fun o =>
          likeMatches ('%' :: ((f.name_query.getD "").data ++ ['%'])) o.name.data)
      else rows
    rows.length

/-! ## Store invariants -/

/-- Primary-key uniqueness of the activities table. -/
def NodupIds (acts : List Activity) : Prop :=
  (acts.map (fun a => a.id)).Nodup

/-- Generated primary keys are positive, so no activity row has id 0. -/
def IdsPos (acts : List Activity) : Prop :=
  ∀ a ∈ acts, a.id ≠ 0

/-- The parent row of an activity, when its parent reference resolves. -/
def lookupParent (acts : List Activity) (a : Activity) : Option Activity :=
  match a.parent_id with
  | none => none
  | some q => findAct acts q

/-- The level an activity row must have: its resolved parent's level + 1, or
1 when it has no (resolvable) parent. -/
def expectedLevel (acts : List Activity) (a : Activity) : Nat :=
  match lookupParent acts a with
  | some p => p.level + 1
  | none => 1

/-- The level invariant on a list of activity rows: each row's level is its
resolved parent's level + 1, or 1 when it has no (resolvable) parent, and
levels never exceed 3. -/
def levelsOkL (acts : List Activity) : Prop :=
  ∀ a ∈ acts, a.level = expectedLevel acts a ∧ a.level ≤ 3

/-- The level invariant of the stored activity tree. -/
def levelsOk (s : Store) : Prop :=
  levelsOkL s.activities

/-- Sibling uniqueness: no two stored activities share both name and
parent_id (a NULL parent included). -/
def pairsUnique (s : Store) : Prop :=
  List.Pairwise (fun a b => ¬(a.name = b.name ∧ a.parent_id = b.parent_id)) s.activities

/-- A generated id that is fresh for the store: positive, unused, and not
referenced by any stored parent pointer (ids come from a sequence, and every
stored non-zero parent reference points to a row that existed when it was
written). -/
def FreshId (s : Store) (n : Nat) : Prop :=
  n ≠ 0 ∧ ∀ a ∈ s.activities, a.id ≠ n ∧ a.parent_id ≠ some n

instance (acts : List Activity) : Decidable (NodupIds acts) := by
  unfold NodupIds
  infer_instance

instance (acts : List Activity) : Decidable (IdsPos acts) := by
  unfold IdsPos
  infer_instance

instance (acts : List Activity) : Decidable (levelsOkL acts) := by
  unfold levelsOkL
  infer_instance

instance (s : Store) : Decidable (levelsOk s) := by
  unfold levelsOk
  infer_instance

instance (s : Store) : Decidable (pairsUnique s) := by
  unfold pairsUnique
  infer_instance

instance (s : Store) (n : Nat) : Decidable (FreshId s n) := by
  unfold FreshId
  infer_instance

/-! ## Relations used by the verification -/

/-- The (id, parent_id) projection of an activity list. -/
def shape (acts : List Activity) : List (Nat × Option Nat) :=
  acts.map (fun a => (a.id, a.parent_id))

/-- A child-to-parent edge of a shape. -/
def edgeSh (sh : List (Nat × Option Nat)) (c p : Nat) : Prop :=
  (c, some p) ∈ sh

/-- A parent chain of a given length: `ChainN sh n x z` means one can walk
from id `x` up through `n` parent edges and arrive at id `z`. -/
inductive ChainN (sh : List (Nat × Option Nat)) : Nat → Nat → Nat → Prop where
  | refl (x : Nat) : ChainN sh 0 x x
  | cons {x y z : Nat} {n : Nat} :
      edgeSh sh x y → ChainN sh n y z → ChainN sh (n + 1) x z

instance (sh : List (Nat × Option Nat)) (c p : Nat) : Decidable (edgeSh sh c p) := by
  unfold edgeSh
  infer_instance

/-- `x` is a strict descendant of `z`. -/
def DescSh (sh : List (Nat × Option Nat)) (x z : Nat) : Prop :=
  ∃ n, ChainN sh (n + 1) x z

/-- No id is its own strict descendant. -/
def AcyclicSh (sh : List (Nat × Option Nat)) : Prop :=
  ∀ x, ¬ DescSh sh x x

/-- Pointwise agreement up to the level of ids satisfying `D`. -/
def Agrees (D : Nat → Prop) (x y : Activity) : Prop :=
  y.id = x.id ∧ y.name = x.name ∧ y.parent_id = x.parent_id ∧
    (y.level = x.level ∨ D x.id)

def LevelChange (D : Nat → Prop) (acts acts' : List Activity) : Prop :=
  List.Forall₂ (Agrees D) acts acts'

/-- The conclusion the recomputation establishes at a node below the updated
activity: its parent resolves and its level is consistent and within 3. -/
def SubOk (acts' : List Activity) (y : Activity) : Prop :=
  ∃ q P, y.parent_id = some q ∧ findAct acts' q = some P ∧
    y.level = P.level + 1 ∧ y.level ≤ 3

/-- What a successful run of `update_children_levels` at a given fuel
guarantees: only levels of strict descendants of the updated node change,
and every strict descendant ends with a resolved parent, level =
parent.level + 1, and level ≤ 3. -/
def UclSpecAt (fuel : Nat) : Prop :=
  ∀ acts pid acts', NodupIds acts → AcyclicSh (shape acts) →
    update_children_levels fuel acts pid = .ok acts' →
    LevelChange (fun x => DescSh (shape acts) x pid) acts acts' ∧
    (∀ P₀, findAct acts pid = some P₀ →
      ∀ y ∈ acts', DescSh (shape acts) y.id pid → SubOk acts' y)

/-- With enough fuel relative to the node's level, and no descendant chain
that would break the depth cap, the recomputation succeeds. -/
def UclTotalAt (fuel : Nat) : Prop :=
  ∀ acts pid P, NodupIds acts → AcyclicSh (shape acts) →
    findAct acts pid = some P → P.level ≤ 3 →
    (∀ x n, ChainN (shape acts) (n + 1) x pid → P.level + n + 1 ≤ 3) →
    3 < fuel + P.level →
    ∃ acts', update_children_levels fuel acts pid = .ok acts'

/-! ## Lookup lemmas -/

theorem findAct_cons {a : Activity} {l : List Activity} {q : Nat} :
    findAct (a :: l) q = if a.id == q then some a else findAct l q := by
  cases h : (a.id == q) with
  | true => simp [findAct, List.find?, h]
  | false => simp [findAct, List.find?, h]

theorem findAct_some_mem {acts : List Activity} {i : Nat} {a : Activity}
    (h : findAct acts i = some a) : a ∈ acts ∧ a.id = i := by
  induction acts with
  | nil => simp [findAct] at h
  | cons b l ih =>
    rw [findAct_cons] at h
    by_cases hq : (b.id == i) = true
    · rw [if_pos hq] at h
      obtain rfl := Option.some.inj h
      exact ⟨List.mem_cons_self _ _, by simpa using hq⟩
    · rw [if_neg hq] at h
      rcases ih h with ⟨h1, h2⟩
      exact ⟨List.mem_cons_of_mem _ h1, h2⟩

theorem findAct_eq_none_iff {acts : List Activity} {i : Nat} :
    findAct acts i = none ↔ ∀ a ∈ acts, a.id ≠ i := by
  unfold findAct
  rw [List.find?_eq_none]
  simp

theorem findAct_of_mem_nodup {acts : List Activity} {a : Activity}
    (hn : NodupIds acts) (ha : a ∈ acts) : findAct acts a.id = some a := by
  induction acts with
  | nil => cases ha
  | cons b l ih =>
    rw [findAct_cons]
    rcases List.mem_cons.mp ha with rfl | ha2
    · rw [if_pos (by simp)]
    · have hbne : b.id ≠ a.id := by
        intro he
        have : a.id ∈ l.map (fun x => x.id) := List.mem_map_of_mem _ ha2
        rw [← he] at this
        exact (List.nodup_cons.mp hn).1 this
      rw [if_neg (by simpa using hbne)]
      exact ih (List.nodup_cons.mp hn).2 ha2

theorem findAct_id_eq {acts : List Activity} {a b : Activity}
    (hn : NodupIds acts) (ha : a ∈ acts) (hb : b ∈ acts) (hid : a.id = b.id) :
    a = b := by
  have h1 := findAct_of_mem_nodup hn ha
  have h2 := findAct_of_mem_nodup hn hb
  rw [hid] at h1
  rw [h1] at h2
  exact Option.some.inj h2

theorem findAct_append {acts₁ acts₂ : List Activity} {i : Nat} :
    findAct (acts₁ ++ acts₂) i = (findAct acts₁ i).or (findAct acts₂ i) := by
  unfold findAct
  exact List.find?_append

/-! ## Shape of the tree and parent chains

The shape of an activity list is its (id, parent_id) projection; the level
recomputation changes only levels, so the shape is invariant under it and
the ancestor relation can be stated once, over shapes. -/


theorem shape_fst (acts : List Activity) :
    (shape acts).map Prod.fst = acts.map (fun a => a.id) := by
  unfold shape
  rw [List.map_map]
  rfl

theorem edgeSh_of_mem {acts : List Activity} {a : Activity} {p : Nat}
    (ha : a ∈ acts) (hp : a.parent_id = some p) : edgeSh (shape acts) a.id p := by
  unfold edgeSh shape
  rw [← hp]
  exact List.mem_map_of_mem _ ha

theorem mem_of_edgeSh {acts : List Activity} {c p : Nat}
    (h : edgeSh (shape acts) c p) : ∃ a ∈ acts, a.id = c ∧ a.parent_id = some p := by
  unfold edgeSh shape at h
  rcases List.mem_map.mp h with ⟨a, ha, he⟩
  exact ⟨a, ha, congrArg Prod.fst he, congrArg Prod.snd he⟩

theorem pair_snd_unique {l : List (Nat × Option Nat)} {a : Nat} {b c : Option Nat}
    (hn : (l.map Prod.fst).Nodup) (hb : (a, b) ∈ l) (hc : (a, c) ∈ l) : b = c := by
  induction l with
  | nil => cases hb
  | cons x xs ih =>
    rcases List.mem_cons.mp hb with rfl | hb2
    · rcases List.mem_cons.mp hc with he | hc2
      · exact (congrArg Prod.snd he).symm
      · exfalso
        have : a ∈ xs.map Prod.fst := by
          simpa using List.mem_map_of_mem Prod.fst hc2
        exact (List.nodup_cons.mp hn).1 this
    · rcases List.mem_cons.mp hc with rfl | hc2
      · exfalso
        have : a ∈ xs.map Prod.fst := by
          simpa using List.mem_map_of_mem Prod.fst hb2
        exact (List.nodup_cons.mp hn).1 this
      · exact ih (List.nodup_cons.mp hn).2 hb2 hc2

theorem edgeSh_unique {acts : List Activity} {c p₁ p₂ : Nat}
    (hn : NodupIds acts) (h1 : edgeSh (shape acts) c p₁) (h2 : edgeSh (shape acts) c p₂) :
    p₁ = p₂ := by
  have hfst : ((shape acts).map Prod.fst).Nodup := by
    rw [shape_fst]
    exact hn
  have := pair_snd_unique hfst h1 h2
  exact Option.some.inj this

theorem ChainN.append {sh : List (Nat × Option Nat)} :
    ∀ {n m x y z}, ChainN sh n x y → ChainN sh m y z → ChainN sh (n + m) x z := by
  intro n m x y z h1 h2
  induction h1 with
  | refl => simpa using h2
  | cons he _ ih =>
    have := ChainN.cons he (ih h2)
    convert this using 1
    omega

theorem chain_comparable {acts : List Activity} (hn : NodupIds acts) :
    ∀ {n m u v x}, ChainN (shape acts) n x u → ChainN (shape acts) m x v →
      n ≤ m → ChainN (shape acts) (m - n) u v := by
  intro n
  induction n with
  | zero =>
    intro m u v x h1 h2 _
    cases h1
    simpa using h2
  | succ k ih =>
    intro m u v x h1 h2 hle
    cases h1 with
    | cons he htail =>
      cases h2 with
      | refl => omega
      | cons he2 htail2 =>
        have heq := edgeSh_unique hn he he2
        subst heq
        have := ih htail htail2 (by omega)
        convert this using 1
        omega

theorem desc_last_edge {sh : List (Nat × Option Nat)} :
    ∀ {n y p}, ChainN sh (n + 1) y p →
      ∃ c, edgeSh sh c p ∧ (y = c ∨ DescSh sh y c) := by
  intro n
  induction n with
  | zero =>
    intro y p h
    cases h with
    | cons he htail =>
      cases htail
      exact ⟨y, he, Or.inl rfl⟩
  | succ m ih =>
    intro y p h
    cases h with
    | cons he htail =>
      rcases ih htail with ⟨c, hc, hyc⟩
      refine ⟨c, hc, Or.inr ?_⟩
      rcases hyc with rfl | ⟨k, hk⟩
      · exact ⟨0, ChainN.cons he (ChainN.refl _)⟩
      · exact ⟨k + 1, ChainN.cons he hk⟩

/-- Along a parent chain of a store satisfying the level invariant, the
level decreases by exactly 1 per edge. -/
theorem chain_level {acts : List Activity} (hok : levelsOkL acts) (hn : NodupIds acts) :
    ∀ {n x z ax az}, ChainN (shape acts) n x z →
      findAct acts x = some ax → findAct acts z = some az →
      ax.level = az.level + n := by
  intro n x z ax az hc
  induction hc generalizing ax with
  | refl =>
    intro h1 h2
    rw [h1] at h2
    obtain rfl := Option.some.inj h2
    simp
  | @cons x' y' z' n' he htail ih =>
    intro h1 h2
    rcases mem_of_edgeSh he with ⟨a, ha, haid, hap⟩
    have hfa := findAct_of_mem_nodup hn ha
    rw [haid] at hfa
    rw [hfa] at h1
    obtain rfl := Option.some.inj h1
    have hclause := (hok a ha).1
    have hlp : lookupParent acts a = findAct acts y' := by
      unfold lookupParent
      rw [hap]
    cases htail with
    | refl =>
      have hexp : expectedLevel acts a = az.level + 1 := by
        unfold expectedLevel
        rw [hlp, h2]
      omega
    | @cons _ m _ k he2 htail2 =>
      rcases mem_of_edgeSh he2 with ⟨b, hb, hbid, _⟩
      have hfb : findAct acts y' = some b := by
        rw [← hbid]
        exact findAct_of_mem_nodup hn hb
      have hexp : expectedLevel acts a = b.level + 1 := by
        unfold expectedLevel
        rw [hlp, hfb]
      have hrec := ih hfb h2
      omega

/-- A store satisfying the level invariant has an acyclic parent structure. -/
theorem acyclic_of_levelsOk {acts : List Activity}
    (hok : levelsOkL acts) (hn : NodupIds acts) : AcyclicSh (shape acts) := by
  rintro x ⟨n, hc⟩
  have hx : ∃ a ∈ acts, a.id = x := by
    cases hc with
    | cons he _ =>
      rcases mem_of_edgeSh he with ⟨a, ha, haid, _⟩
      exact ⟨a, ha, haid⟩
  rcases hx with ⟨a, ha, rfl⟩
  have hfa := findAct_of_mem_nodup hn ha
  have := chain_level hok hn hc hfa hfa
  omega

/-! ## The level-change relation

`update_children_levels` rewrites only the level column.  `LevelChange D`
relates two activity lists that agree pointwise on id, name and parent_id,
and whose levels may differ only at ids satisfying `D`. -/


theorem agrees_refl {D : Nat → Prop} (x : Activity) : Agrees D x x :=
  ⟨Eq.refl _, Eq.refl _, Eq.refl _, Or.inl (Eq.refl _)⟩

theorem Agrees.eq_of_not {D : Nat → Prop} {x y : Activity}
    (h : Agrees D x y) (hd : ¬ D x.id) : y = x := by
  rcases h with ⟨h1, h2, h3, h4 | h4⟩
  · cases x; cases y
    simp_all
  · exact absurd h4 hd

theorem LevelChange.refl {D : Nat → Prop} (acts : List Activity) :
    LevelChange D acts acts := by
  induction acts with
  | nil => exact List.Forall₂.nil
  | cons a l ih => exact List.Forall₂.cons (agrees_refl a) ih

theorem LevelChange.mono {D D' : Nat → Prop} {acts acts' : List Activity}
    (hdd : ∀ i, D i → D' i) (h : LevelChange D acts acts') :
    LevelChange D' acts acts' := by
  induction h with
  | nil => exact List.Forall₂.nil
  | cons ha _ ih =>
    refine List.Forall₂.cons ⟨ha.1, ha.2.1, ha.2.2.1, ?_⟩ ih
    rcases ha.2.2.2 with h | h
    · exact Or.inl h
    · exact Or.inr (hdd _ h)

theorem LevelChange.trans {D : Nat → Prop} {a b c : List Activity}
    (h1 : LevelChange D a b) (h2 : LevelChange D b c) : LevelChange D a c := by
  induction h1 generalizing c with
  | nil =>
    cases h2
    exact List.Forall₂.nil
  | cons hab _ ih =>
    cases h2 with
    | cons hbc htail =>
      refine List.Forall₂.cons ?_ (ih htail)
      obtain ⟨i1, n1, p1, l1⟩ := hab
      obtain ⟨i2, n2, p2, l2⟩ := hbc
      refine ⟨i2.trans i1, n2.trans n1, p2.trans p1, ?_⟩
      rcases l2 with l2 | l2
      · rcases l1 with l1 | l1
        · exact Or.inl (l2.trans l1)
        · exact Or.inr l1
      · rw [i1] at l2
        exact Or.inr l2

theorem setLevel_levelChange (acts : List Activity) (i lvl : Nat) :
    LevelChange (fun x => x = i) acts (setLevel acts i lvl) := by
  induction acts with
  | nil => exact List.Forall₂.nil
  | cons a l ih =>
    unfold setLevel at ih ⊢
    rw [List.map_cons]
    refine List.Forall₂.cons ?_ ih
    by_cases hid : (a.id == i) = true
    · rw [if_pos hid]
      exact ⟨rfl, rfl, rfl, Or.inr (by simpa using hid)⟩
    · rw [if_neg hid]
      exact agrees_refl a

theorem LevelChange.shape_eq {D : Nat → Prop} {acts acts' : List Activity}
    (h : LevelChange D acts acts') : shape acts = shape acts' := by
  induction h with
  | nil => rfl
  | cons ha _ ih =>
    unfold shape at ih ⊢
    rw [List.map_cons, List.map_cons, ih, ha.1, ha.2.2.1]

theorem LevelChange.findAct_some {D : Nat → Prop} {acts acts' : List Activity}
    {q : Nat} {x : Activity} (h : LevelChange D acts acts')
    (hf : findAct acts q = some x) :
    ∃ y, findAct acts' q = some y ∧ Agrees D x y := by
  induction h with
  | nil => simp [findAct] at hf
  | @cons a b l l' ha htail ih =>
    rw [findAct_cons] at hf
    rw [findAct_cons]
    by_cases hq : (a.id == q) = true
    · rw [if_pos hq] at hf
      refine ⟨b, ?_, ?_⟩
      · rw [if_pos (by rw [ha.1]; exact hq)]
      · rw [← Option.some.inj hf]
        exact ha
    · rw [if_neg hq] at hf
      rcases ih hf with ⟨y, hy1, hy2⟩
      refine ⟨y, ?_, hy2⟩
      rw [if_neg (by rw [ha.1]; exact hq)]
      exact hy1

theorem LevelChange.findAct_none {D : Nat → Prop} {acts acts' : List Activity}
    {q : Nat} (h : LevelChange D acts acts') (hf : findAct acts q = none) :
    findAct acts' q = none := by
  rw [findAct_eq_none_iff] at hf ⊢
  intro y hy
  induction h with
  | nil => cases hy
  | cons ha htail ih =>
    rcases List.mem_cons.mp hy with rfl | hy2
    · rw [ha.1]
      exact hf _ (List.mem_cons_self _ _)
    · exact ih (fun a ha2 => hf a (List.mem_cons_of_mem _ ha2)) hy2

theorem LevelChange.mem_right {D : Nat → Prop} {acts acts' : List Activity}
    (h : LevelChange D acts acts') {y : Activity} (hy : y ∈ acts') :
    ∃ x ∈ acts, Agrees D x y := by
  induction h with
  | nil => cases hy
  | cons ha _ ih =>
    rcases List.mem_cons.mp hy with rfl | hy2
    · exact ⟨_, List.mem_cons_self _ _, ha⟩
    · rcases ih hy2 with ⟨x, hx1, hx2⟩
      exact ⟨x, List.mem_cons_of_mem _ hx1, hx2⟩

theorem LevelChange.mem_left {D : Nat → Prop} {acts acts' : List Activity}
    (h : LevelChange D acts acts') {x : Activity} (hx : x ∈ acts) :
    ∃ y ∈ acts', Agrees D x y := by
  induction h with
  | nil => cases hx
  | cons ha _ ih =>
    rcases List.mem_cons.mp hx with rfl | hx2
    · exact ⟨_, List.mem_cons_self _ _, ha⟩
    · rcases ih hx2 with ⟨y, hy1, hy2⟩
      exact ⟨y, List.mem_cons_of_mem _ hy1, hy2⟩

theorem LevelChange.nodupIds {D : Nat → Prop} {acts acts' : List Activity}
    (h : LevelChange D acts acts') (hn : NodupIds acts) : NodupIds acts' := by
  have : acts'.map (fun a => a.id) = acts.map (fun a => a.id) := by
    have := h.shape_eq
    calc acts'.map (fun a => a.id) = (shape acts').map Prod.fst := (shape_fst acts').symm
      _ = (shape acts).map Prod.fst := by rw [this]
      _ = acts.map (fun a => a.id) := shape_fst acts
  unfold NodupIds
  rw [this]
  exact hn

/-! ## Soundness of the cycle walk -/

theorem wccAux_sound {acts : List Activity} (hn : NodupIds acts) (hp : IdsPos acts)
    {aid : Nat} (haid : aid ≠ 0) :
    ∀ {n fuel cur : Nat}, ChainN (shape acts) n cur aid → n < fuel →
      wccAux acts fuel aid cur = true := by
  intro n
  induction n with
  | zero =>
    intro fuel cur hc hlt
    cases hc
    match fuel, hlt with
    | f + 1, _ =>
      have hb0 : (aid == 0) = false := by simpa using haid
      simp [wccAux, hb0]
  | succ k ih =>
    intro fuel cur hc hlt
    cases hc with
    | cons he htail =>
      rcases mem_of_edgeSh he with ⟨a, ha, haid2, hap⟩
      match fuel, hlt with
      | f + 1, hlt =>
        have hcur0 : cur ≠ 0 := by
          rw [← haid2]
          exact hp a ha
        have hb0 : (cur == 0) = false := by simpa using hcur0
        by_cases hca : cur = aid
        · subst hca
          simp [wccAux, hb0]
        · have hbca : (cur == aid) = false := by simpa using hca
          have hfind : findAct acts cur = some a := by
            rw [← haid2]
            exact findAct_of_mem_nodup hn ha
          have hrec := ih htail (show k < f by omega)
          simp [wccAux, hb0, hbca, hfind, hap, hrec]

/-- If the candidate parent is the activity itself or one of its
descendants, the walk finds the cycle. -/
theorem wcc_true_of_desc {s : Store} (hok : levelsOk s) (hn : NodupIds s.activities)
    (hp : IdsPos s.activities) {aid pid : Nat}
    (hstored : ∃ a ∈ s.activities, a.id = aid)
    (h : pid = aid ∨ DescSh (shape s.activities) pid aid) :
    would_create_cycle s aid pid = true := by
  rcases hstored with ⟨az, haz, hazid⟩
  have haid : aid ≠ 0 := by
    rw [← hazid]
    exact hp az haz
  unfold would_create_cycle
  rcases h with rfl | ⟨n, hc⟩
  · exact wccAux_sound hn hp haid (ChainN.refl _) (by omega)
  · have hfz : findAct s.activities aid = some az := by
      rw [← hazid]
      exact findAct_of_mem_nodup hn haz
    have hx : ∃ a ∈ s.activities, a.id = pid := by
      cases hc with
      | cons he _ =>
        rcases mem_of_edgeSh he with ⟨a, ha, haid3, _⟩
        exact ⟨a, ha, haid3⟩
    rcases hx with ⟨ax, hax, haxid⟩
    have hfx : findAct s.activities pid = some ax := by
      rw [← haxid]
      exact findAct_of_mem_nodup hn hax
    have hlev := chain_level hok hn hc hfx hfz
    have hle := (hok ax hax).2
    exact wccAux_sound hn hp haid hc (by omega)

/-- Contrapositive: a walk that found no cycle rules out self and every
descendant. -/
theorem not_desc_of_wcc_false {s : Store} (hok : levelsOk s)
    (hn : NodupIds s.activities) (hp : IdsPos s.activities) {aid pid : Nat}
    (hstored : ∃ a ∈ s.activities, a.id = aid)
    (h : would_create_cycle s aid pid = false) :
    pid ≠ aid ∧ ¬ DescSh (shape s.activities) pid aid := by
  constructor
  · intro hcontra
    have := wcc_true_of_desc hok hn hp hstored (Or.inl hcontra)
    rw [h] at this
    cases this
  · intro hcontra
    have := wcc_true_of_desc hok hn hp hstored (Or.inr hcontra)
    rw [h] at this
    cases this

/-! ## Specification of the subtree level recomputation -/


theorem desc_of_edge {sh : List (Nat × Option Nat)} {c p : Nat}
    (he : edgeSh sh c p) : DescSh sh c p :=
  ⟨0, ChainN.cons he (ChainN.refl _)⟩

theorem desc_trans_edge {sh : List (Nat × Option Nat)} {x c p : Nat}
    (hd : DescSh sh x c) (he : edgeSh sh c p) : DescSh sh x p := by
  rcases hd with ⟨n, hn⟩
  exact ⟨n + 1, by simpa [Nat.add_comm] using hn.append (ChainN.cons he (ChainN.refl _))⟩

/-- An id is neither equal to nor a descendant of any of its children. -/
theorem no_desc_self_child {sh : List (Nat × Option Nat)} (hacy : AcyclicSh sh)
    {c pid : Nat} (he : edgeSh sh c pid) : pid ≠ c ∧ ¬ DescSh sh pid c := by
  constructor
  · rintro rfl
    exact hacy pid (desc_of_edge he)
  · intro hd
    exact hacy pid (desc_trans_edge hd he)

/-- Subtrees of two children of the same node do not contain each other's
roots. -/
theorem sibling_not_desc {acts : List Activity} (hn : NodupIds acts)
    (hacy : AcyclicSh (shape acts)) {c c' pid : Nat}
    (he : edgeSh (shape acts) c pid) (he' : edgeSh (shape acts) c' pid) :
    ¬ DescSh (shape acts) c' c := by
  rintro ⟨n, hc⟩
  cases hc with
  | cons hedge htail =>
    obtain rfl := edgeSh_unique hn hedge he'
    exact hacy _ ⟨n, htail.append (ChainN.cons he (ChainN.refl _))⟩

theorem chainN_zero {sh : List (Nat × Option Nat)} {u v : Nat}
    (h : ChainN sh 0 u v) : u = v := by
  cases h
  rfl

/-- Subtrees rooted at distinct children of the same node are disjoint. -/
theorem under_children_disjoint {acts : List Activity} (hn : NodupIds acts)
    (hacy : AcyclicSh (shape acts)) {pid : Nat} {k k' : Activity}
    (hek : edgeSh (shape acts) k.id pid) (hek' : edgeSh (shape acts) k'.id pid)
    (hne : k'.id ≠ k.id) {x : Nat}
    (hx : x = k.id ∨ DescSh (shape acts) x k.id)
    (hx' : x = k'.id ∨ DescSh (shape acts) x k'.id) : False := by
  rcases hx with rfl | hx
  · rcases hx' with he | hx'
    · exact hne he.symm
    · exact sibling_not_desc hn hacy hek' hek hx'
  · rcases hx' with rfl | hx'
    · exact sibling_not_desc hn hacy hek hek' hx
    · rcases hx with ⟨a, hca⟩
      rcases hx' with ⟨b, hcb⟩
      rcases Nat.le_total (a + 1) (b + 1) with hle | hle
      · have hcc := chain_comparable hn hca hcb hle
        rcases hdiff : b - a with _ | m
        · have : (b : Nat) + 1 - (a + 1) = 0 := by omega
          rw [this] at hcc
          exact hne (chainN_zero hcc).symm
        · have : (b : Nat) + 1 - (a + 1) = m + 1 := by omega
          rw [this] at hcc
          exact sibling_not_desc hn hacy hek' hek ⟨m, hcc⟩
      · have hcc := chain_comparable hn hcb hca hle
        rcases hdiff : a - b with _ | m
        · have : (a : Nat) + 1 - (b + 1) = 0 := by omega
          rw [this] at hcc
          exact hne (chainN_zero hcc)
        · have : (a : Nat) + 1 - (b + 1) = m + 1 := by omega
          rw [this] at hcc
          exact sibling_not_desc hn hacy hek hek' ⟨m, hcc⟩

theorem LevelChange.findAct_frozen {D : Nat → Prop} {a b : List Activity} {q : Nat}
    {x : Activity} (h : LevelChange D a b) (hf : findAct a q = some x)
    (hnd : ¬ D q) : findAct b q = some x := by
  rcases h.findAct_some hf with ⟨y, hy1, hy2⟩
  have hxq : x.id = q := (findAct_some_mem hf).2
  have hyx : y = x := hy2.eq_of_not (by rw [hxq]; exact hnd)
  rw [hyx] at hy1
  exact hy1

theorem LevelChange.mem_frozen {D : Nat → Prop} {a b : List Activity}
    (h : LevelChange D a b) {x : Activity} (hx : x ∈ a) (hnd : ¬ D x.id) :
    x ∈ b := by
  rcases h.mem_left hx with ⟨y, hy1, hy2⟩
  have hyx := hy2.eq_of_not hnd
  rw [hyx] at hy1
  exact hy1

theorem setLevel_findAct_self {acts : List Activity} (hn : NodupIds acts)
    {k : Activity} (hk : k ∈ acts) (lvl : Nat) :
    findAct (setLevel acts k.id lvl) k.id = some { k with level := lvl } := by
  induction acts with
  | nil => cases hk
  | cons a l ih =>
    unfold setLevel
    rw [List.map_cons]
    rcases List.mem_cons.mp hk with rfl | hk2
    · rw [if_pos (by simp), findAct_cons, if_pos (by simp)]
    · have hane : a.id ≠ k.id := by
        intro he
        have : k.id ∈ l.map (fun x => x.id) := List.mem_map_of_mem _ hk2
        rw [← he] at this
        exact (List.nodup_cons.mp hn).1 this
      rw [if_neg (by simpa using hane), findAct_cons, if_neg (by simpa using hane)]
      exact ih (List.nodup_cons.mp hn).2 hk2


theorem ucl_go_spec (fuel : Nat) (hspec : UclSpecAt fuel) :
    ∀ (kids : List Activity) (plvl : Nat) (acts acts' : List Activity) (pid : Nat)
      (P : Activity),
      NodupIds acts → AcyclicSh (shape acts) →
      (∀ k ∈ kids, k ∈ acts ∧ k.parent_id = some pid) →
      (kids.map (fun k => k.id)).Nodup →
      findAct acts pid = some P → P.level = plvl →
      ucl_go (update_children_levels fuel) plvl kids acts = .ok acts' →
      LevelChange (fun x => ∃ k ∈ kids, x = k.id ∨ DescSh (shape acts) x k.id) acts acts' ∧
      (∀ y ∈ acts', (∃ k ∈ kids, y.id = k.id ∨ DescSh (shape acts) y.id k.id) →
        SubOk acts' y) := by
  intro kids
  induction kids with
  | nil =>
    intro plvl acts acts' pid P hn hacy hkm hknd hfp hPl hgo
    simp only [ucl_go] at hgo
    obtain rfl := Except.ok.inj hgo
    refine ⟨LevelChange.refl _, ?_⟩
    rintro y hy ⟨K, hK, _⟩
    cases hK
  | cons k ks ih =>
    intro plvl acts acts' pid P hn hacy hkm hknd hfp hPl hgo
    rcases hkm k (List.mem_cons_self _ _) with ⟨hkmem, hkpar⟩
    have hek : edgeSh (shape acts) k.id pid := edgeSh_of_mem hkmem hkpar
    by_cases hple : plvl + 1 ≤ 3
    case neg =>
      exfalso
      simp [ucl_go, hple] at hgo
    case pos =>
    simp only [ucl_go, if_pos hple] at hgo
    cases hrec : update_children_levels fuel (setLevel acts k.id (plvl + 1)) k.id with
    | error e =>
      exfalso
      rw [hrec] at hgo
      cases hgo
    | ok acts2 =>
      rw [hrec] at hgo
      -- the first child
      have hlc1 : LevelChange (fun x => x = k.id) acts (setLevel acts k.id (plvl + 1)) :=
        setLevel_levelChange acts k.id (plvl + 1)
      have hsh1 : shape (setLevel acts k.id (plvl + 1)) = shape acts := hlc1.shape_eq.symm
      have hn1 : NodupIds (setLevel acts k.id (plvl + 1)) := hlc1.nodupIds hn
      have hacy1 : AcyclicSh (shape (setLevel acts k.id (plvl + 1))) := by
        rw [hsh1]
        exact hacy
      obtain ⟨hlc2, hsub2⟩ := hspec _ k.id _ hn1 hacy1 hrec
      rw [hsh1] at hlc2 hsub2
      have hpidprot := no_desc_self_child hacy hek
      have hkself : ¬ DescSh (shape acts) k.id k.id := hacy k.id
      have hf1P : findAct (setLevel acts k.id (plvl + 1)) pid = some P :=
        hlc1.findAct_frozen hfp hpidprot.1
      have hf2P : findAct acts2 pid = some P := hlc2.findAct_frozen hf1P hpidprot.2
      have hk1 : findAct (setLevel acts k.id (plvl + 1)) k.id =
          some { k with level := plvl + 1 } := setLevel_findAct_self hn hkmem _
      have hk2 : findAct acts2 k.id = some { k with level := plvl + 1 } :=
        hlc2.findAct_frozen hk1 hkself
      have hk2mem := (findAct_some_mem hk2).1
      have hn2 : NodupIds acts2 := hlc2.nodupIds hn1
      have hsh2 : shape acts2 = shape acts := by
        rw [← hlc2.shape_eq]
        exact hsh1
      have hacy2 : AcyclicSh (shape acts2) := by
        rw [hsh2]
        exact hacy
      have hksid : ∀ k' ∈ ks, k'.id ≠ k.id := by
        intro k' hk' he
        have : k.id ∈ ks.map (fun x => x.id) := by
          rw [← he]
          exact List.mem_map_of_mem _ hk'
        exact (List.nodup_cons.mp hknd).1 this
      have hks2 : ∀ k' ∈ ks, k' ∈ acts2 ∧ k'.parent_id = some pid := by
        intro k' hk'
        rcases hkm k' (List.mem_cons_of_mem _ hk') with ⟨hk'm, hk'p⟩
        have hek' : edgeSh (shape acts) k'.id pid := edgeSh_of_mem hk'm hk'p
        have h1 : k' ∈ setLevel acts k.id (plvl + 1) :=
          hlc1.mem_frozen hk'm (hksid k' hk')
        have h2 : k' ∈ acts2 :=
          hlc2.mem_frozen h1 (sibling_not_desc hn hacy hek hek')
        exact ⟨h2, hk'p⟩
      have hknd2 : (ks.map (fun k => k.id)).Nodup := (List.nodup_cons.mp hknd).2
      have hgo2 : ucl_go (update_children_levels fuel) plvl ks acts2 = .ok acts' := hgo
      have hihres := ih plvl acts2 acts' pid P hn2 hacy2 hks2 hknd2 hf2P hPl hgo2
      rw [hsh2] at hihres
      obtain ⟨hlc3, hsub3⟩ := hihres
      refine ⟨?_, ?_⟩
      · have c1 : LevelChange
            (fun x => ∃ kk ∈ k :: ks, x = kk.id ∨ DescSh (shape acts) x kk.id)
            acts (setLevel acts k.id (plvl + 1)) :=
          hlc1.mono (fun i hi => ⟨k, List.mem_cons_self _ _, Or.inl hi⟩)
        have c2 : LevelChange
            (fun x => ∃ kk ∈ k :: ks, x = kk.id ∨ DescSh (shape acts) x kk.id)
            (setLevel acts k.id (plvl + 1)) acts2 :=
          hlc2.mono (fun i hi => ⟨k, List.mem_cons_self _ _, Or.inr hi⟩)
        have c3 : LevelChange
            (fun x => ∃ kk ∈ k :: ks, x = kk.id ∨ DescSh (shape acts) x kk.id)
            acts2 acts' := by
          refine hlc3.mono ?_
          rintro i ⟨k', hk', hc⟩
          exact ⟨k', List.mem_cons_of_mem _ hk', hc⟩
        exact (c1.trans c2).trans c3
      · intro y hy hw
        rcases hw with ⟨K, hK, hKc⟩
        rcases List.mem_cons.mp hK with hKk | hKks
        case inr => exact hsub3 y hy ⟨K, hKks, hKc⟩
        case inl =>
        rw [hKk] at hKc
        have hyprot : ¬ (∃ k' ∈ ks, y.id = k'.id ∨ DescSh (shape acts) y.id k'.id) := by
          rintro ⟨k', hk', hy'⟩
          rcases hkm k' (List.mem_cons_of_mem _ hk') with ⟨hk'm, hk'p⟩
          have hek' : edgeSh (shape acts) k'.id pid := edgeSh_of_mem hk'm hk'p
          exact under_children_disjoint hn hacy hek hek' (hksid k' hk') hKc hy'
        rcases hlc3.mem_right hy with ⟨y₂, hy₂mem, hagr⟩
        have hyy : y = y₂ := by
          refine hagr.eq_of_not ?_
          rintro ⟨k', hk', hc⟩
          refine hyprot ⟨k', hk', ?_⟩
          rw [hagr.1]
          exact hc
        have hyin2 : y ∈ acts2 := by
          rw [hyy]
          exact hy₂mem
        have hsub2y : SubOk acts2 y := by
          rcases hKc with hid | hdesc
          · have hyk : y = { k with level := plvl + 1 } := by
              refine findAct_id_eq hn2 hyin2 hk2mem ?_
              rw [hid]
            rw [hyk]
            refine ⟨pid, P, by simpa using hkpar, hf2P, ?_, by simpa using hple⟩
            simp [hPl]
          · exact hsub2 _ hk1 y hyin2 hdesc
        rcases hsub2y with ⟨q, P', hpar, hfq, hlv, hl3⟩
        have hedgeyq : edgeSh (shape acts) y.id q := by
          have := edgeSh_of_mem hyin2 hpar
          rw [hsh2] at this
          exact this
        have hqprot : ¬ (∃ k' ∈ ks, q = k'.id ∨ DescSh (shape acts) q k'.id) := by
          rintro ⟨k', hk', hq'⟩
          rcases hkm k' (List.mem_cons_of_mem _ hk') with ⟨hk'm, hk'p⟩
          have hek' : edgeSh (shape acts) k'.id pid := edgeSh_of_mem hk'm hk'p
          rcases hKc with hid | hdesc
          · have hqe : q = pid := by
              refine edgeSh_unique hn ?_ hek
              rw [← hid]
              exact hedgeyq
            subst hqe
            have hprot' := no_desc_self_child hacy hek'
            rcases hq' with he | hd
            · exact hprot'.1 he
            · exact hprot'.2 hd
          · rcases hdesc with ⟨n, hchain⟩
            cases hchain with
            | cons hedge2 htail =>
              have hmq := edgeSh_unique hn hedge2 hedgeyq
              rw [hmq] at htail
              have hqk : q = k.id ∨ DescSh (shape acts) q k.id := by
                cases htail with
                | refl => exact Or.inl rfl
                | cons he3 ht3 => exact Or.inr ⟨_, ChainN.cons he3 ht3⟩
              exact under_children_disjoint hn hacy hek hek' (hksid k' hk') hqk hq'
        have hfq' : findAct acts' q = some P' := hlc3.findAct_frozen hfq hqprot
        exact ⟨q, P', hpar, hfq', hlv, hl3⟩

theorem ucl_spec : ∀ fuel, UclSpecAt fuel := by
  intro fuel
  induction fuel with
  | zero =>
    intro acts pid acts' _ _ h
    simp [update_children_levels] at h
  | succ f ih =>
    intro acts pid acts' hn hacy h
    simp only [update_children_levels] at h
    cases hf : findAct acts pid with
    | none =>
      rw [hf] at h
      obtain rfl := Except.ok.inj h
      refine ⟨LevelChange.refl _, ?_⟩
      intro P₀ hP₀
      cases hP₀
    | some P =>
      rw [hf] at h
      have hkm : ∀ k ∈ acts.filter (fun a => a.parent_id == some pid),
          k ∈ acts ∧ k.parent_id = some pid := by
        intro k hk
        have := List.mem_filter.mp hk
        exact ⟨this.1, by simpa using this.2⟩
      have hknd : ((acts.filter (fun a => a.parent_id == some pid)).map
          (fun k => k.id)).Nodup := by
        refine List.Nodup.sublist (List.Sublist.map _ (List.filter_sublist _)) ?_
        exact hn
      obtain ⟨hlc, hsub⟩ :=
        ucl_go_spec f ih _ P.level acts acts' pid P hn hacy hkm hknd hf rfl h
      refine ⟨?_, ?_⟩
      · refine hlc.mono ?_
        rintro x ⟨k, hk, hc⟩
        rcases hkm k hk with ⟨hkmem, hkpar⟩
        have hek := edgeSh_of_mem hkmem hkpar
        rcases hc with rfl | hd
        · exact desc_of_edge hek
        · exact desc_trans_edge hd hek
      · intro P₀ hP₀ y hy hdesc
        rcases hdesc with ⟨n, hchain⟩
        rcases desc_last_edge hchain with ⟨c, hce, hcy⟩
        rcases mem_of_edgeSh hce with ⟨K, hKm, hKid, hKpar⟩
        have hKk : K ∈ acts.filter (fun a => a.parent_id == some pid) :=
          List.mem_filter.mpr ⟨hKm, by simp [hKpar]⟩
        refine hsub y hy ⟨K, hKk, ?_⟩
        rw [hKid]
        exact hcy

/-! ## The modified row and the new shape -/

theorem findAct_map_idpres {f : Activity → Activity} (hf : ∀ a, (f a).id = a.id)
    (acts : List Activity) (i : Nat) :
    findAct (acts.map f) i = (findAct acts i).map f := by
  induction acts with
  | nil => simp [findAct]
  | cons a l ih =>
    rw [List.map_cons, findAct_cons, findAct_cons]
    by_cases hq : (a.id == i) = true
    · rw [if_pos (by rw [hf a]; exact hq), if_pos hq]
      simp
    · rw [if_neg (by rw [hf a]; exact hq), if_neg hq]
      exact ih

theorem modifyAct_id (aid : Nat) (nm : String) (np : Option Nat) (lvl : Nat)
    (b : Activity) :
    (if b.id == aid then { b with name := nm, parent_id := np, level := lvl }
     else b).id = b.id := by
  by_cases h : (b.id == aid) = true
  · rw [if_pos h]
  · rw [if_neg h]

theorem modifyAct_ids (acts : List Activity) (aid : Nat) (nm : String)
    (np : Option Nat) (lvl : Nat) :
    (modifyAct acts aid nm np lvl).map (fun a => a.id) = acts.map (fun a => a.id) := by
  unfold modifyAct
  rw [List.map_map]
  refine List.map_congr_left ?_
  intro b _
  exact modifyAct_id aid nm np lvl b

theorem modifyAct_nodup {acts : List Activity} (hn : NodupIds acts)
    (aid : Nat) (nm : String) (np : Option Nat) (lvl : Nat) :
    NodupIds (modifyAct acts aid nm np lvl) := by
  unfold NodupIds
  rw [modifyAct_ids]
  exact hn

theorem modifyAct_findAct_self {acts : List Activity} (hn : NodupIds acts)
    {a₀ : Activity} (ha : a₀ ∈ acts) {aid : Nat} (hid : a₀.id = aid)
    (nm : String) (np : Option Nat) (lvl : Nat) :
    findAct (modifyAct acts aid nm np lvl) aid =
      some { a₀ with name := nm, parent_id := np, level := lvl } := by
  unfold modifyAct
  rw [findAct_map_idpres (modifyAct_id aid nm np lvl)]
  rw [← hid, findAct_of_mem_nodup hn ha]
  simp [hid]

theorem modifyAct_findAct_other {acts : List Activity} {i aid : Nat} (hne : i ≠ aid)
    (nm : String) (np : Option Nat) (lvl : Nat) :
    findAct (modifyAct acts aid nm np lvl) i = findAct acts i := by
  unfold modifyAct
  rw [findAct_map_idpres (modifyAct_id aid nm np lvl)]
  cases hf : findAct acts i with
  | none => simp
  | some p =>
    have hpi : p.id = i := (findAct_some_mem hf).2
    have hba : ¬ ((p.id == aid) = true) := by
      rw [hpi]
      simpa using hne
    simp only [Option.map_some']
    rw [if_neg hba]

theorem edge_modify_elim {acts : List Activity} {aid : Nat} {nm : String}
    {np : Option Nat} {lvl : Nat} {c p : Nat}
    (h : edgeSh (shape (modifyAct acts aid nm np lvl)) c p) :
    (c ≠ aid ∧ edgeSh (shape acts) c p) ∨ (c = aid ∧ np = some p) := by
  rcases mem_of_edgeSh h with ⟨b1, hb1, hbid, hbp⟩
  unfold modifyAct at hb1
  rcases List.mem_map.mp hb1 with ⟨b, hb, hfb⟩
  by_cases hba : (b.id == aid) = true
  · rw [if_pos hba] at hfb
    subst hfb
    simp only at hbid hbp
    right
    refine ⟨?_, ?_⟩
    · rw [← hbid]
      simpa using hba
    · exact hbp
  · rw [if_neg hba] at hfb
    subst hfb
    left
    refine ⟨?_, ?_⟩
    · rw [← hbid]
      simpa using hba
    · rw [← hbid]
      exact edgeSh_of_mem hb hbp

theorem edge_modify_intro_old {acts : List Activity} {aid : Nat} {nm : String}
    {np : Option Nat} {lvl : Nat} {c p : Nat} (hne : c ≠ aid)
    (h : edgeSh (shape acts) c p) :
    edgeSh (shape (modifyAct acts aid nm np lvl)) c p := by
  rcases mem_of_edgeSh h with ⟨b, hb, hbid, hbp⟩
  have hba : ¬ ((b.id == aid) = true) := by
    rw [hbid]
    simpa using hne
  have hmem : b ∈ modifyAct acts aid nm np lvl := by
    unfold modifyAct
    refine List.mem_map.mpr ⟨b, hb, ?_⟩
    simp [hba]
  rw [← hbid]
  exact edgeSh_of_mem hmem hbp

/-- Chains of the new shape that end at the updated node are chains of the
old shape (provided the new parent edge cannot lead back). -/
theorem chain_modify_to_aid {acts : List Activity} {aid : Nat} {nm : String}
    {np : Option Nat} {lvl : Nat}
    (hnp : ∀ p, np = some p → p ≠ aid ∧ ¬ DescSh (shape acts) p aid) :
    ∀ {n x}, ChainN (shape (modifyAct acts aid nm np lvl)) n x aid →
      (x = aid ∧ n = 0) ∨ ChainN (shape acts) n x aid := by
  intro n
  induction n with
  | zero =>
    intro x h
    exact Or.inl ⟨chainN_zero h, rfl⟩
  | succ m ih =>
    intro x h
    cases h with
    | cons he htail =>
      rcases edge_modify_elim he with ⟨hxne, hold⟩ | ⟨hxa, hnpm⟩
      · rcases ih htail with ⟨rfl, rfl⟩ | hrest
        · exact Or.inr (ChainN.cons hold (ChainN.refl _))
        · exact Or.inr (ChainN.cons hold hrest)
      · exfalso
        rcases hnp _ hnpm with ⟨hmne, hmnd⟩
        rcases ih htail with ⟨rfl, rfl⟩ | hrest
        · exact hmne rfl
        · cases hm : m with
          | zero =>
            rw [hm] at hrest
            exact hmne (chainN_zero hrest)
          | succ m2 =>
            rw [hm] at hrest
            exact hmnd ⟨m2, hrest⟩

/-- The updated node is not its own strict descendant in the new shape. -/
theorem not_desc_aid_modify {acts : List Activity} {aid : Nat} {nm : String}
    {np : Option Nat} {lvl : Nat}
    (hnp : ∀ p, np = some p → p ≠ aid ∧ ¬ DescSh (shape acts) p aid) :
    ¬ DescSh (shape (modifyAct acts aid nm np lvl)) aid aid := by
  rintro ⟨n, hc⟩
  cases hc with
  | cons he htail =>
    rcases edge_modify_elim he with ⟨hxne, _⟩ | ⟨_, hnpm⟩
    · exact hxne rfl
    · rcases hnp _ hnpm with ⟨hmne, hmnd⟩
      rcases chain_modify_to_aid hnp htail with ⟨rfl, _⟩ | hrest
      · exact hmne rfl
      · cases n with
        | zero => exact hmne (chainN_zero hrest)
        | succ m2 => exact hmnd ⟨m2, hrest⟩

/-- A chain of the new shape is an old chain, or passes through the updated
node. -/
theorem chain_modify_split {acts : List Activity} {aid : Nat} {nm : String}
    {np : Option Nat} {lvl : Nat} :
    ∀ {n x y}, ChainN (shape (modifyAct acts aid nm np lvl)) n x y →
      ChainN (shape acts) n x y ∨
        (∃ i j, i + j = n ∧ ChainN (shape (modifyAct acts aid nm np lvl)) i x aid ∧
          ChainN (shape (modifyAct acts aid nm np lvl)) j aid y) := by
  intro n
  induction n with
  | zero =>
    intro x y h
    obtain rfl := chainN_zero h
    exact Or.inl (ChainN.refl _)
  | succ m ih =>
    intro x y h
    cases h with
    | @cons _ mid _ _ he htail =>
      by_cases hxa : x = aid
      · subst hxa
        exact Or.inr ⟨0, m + 1, by omega, ChainN.refl _, ChainN.cons he htail⟩
      · rcases edge_modify_elim he with ⟨_, hold⟩ | ⟨hxa2, _⟩
        · rcases ih htail with hrest | ⟨i, j, hij, hpre, hsuf⟩
          · exact Or.inl (ChainN.cons hold hrest)
          · exact Or.inr ⟨i + 1, j, by omega, ChainN.cons he hpre, hsuf⟩
        · exact absurd hxa2 hxa

/-- Acyclicity is preserved by re-parenting the updated node, as long as the
new parent is not the node itself nor one of its old descendants. -/
theorem acyclic_modify {acts : List Activity} (hacy : AcyclicSh (shape acts))
    {aid : Nat} {nm : String} {np : Option Nat} {lvl : Nat}
    (hnp : ∀ p, np = some p → p ≠ aid ∧ ¬ DescSh (shape acts) p aid) :
    AcyclicSh (shape (modifyAct acts aid nm np lvl)) := by
  rintro x ⟨n, hc⟩
  rcases chain_modify_split hc with hold | ⟨i, j, hij, hpre, hsuf⟩
  · exact hacy x ⟨n, hold⟩
  · have hcyc := hsuf.append hpre
    cases hji : j + i with
    | zero => omega
    | succ m2 =>
      rw [hji] at hcyc
      exact not_desc_aid_modify hnp ⟨m2, hcyc⟩

/-! ## Rollback behaviour: a raising call leaves the committed store as it
was (single-commit operations). -/

theorem create_activity_error {s : Store} {newId : Nat} {d : ActivityCreate}
    {s' : Store} {e : String}
    (h : create_activity s newId d = (s', .error e)) : s' = s := by
  simp only [create_activity] at h
  repeat' split at h
  all_goals cases h
  all_goals rfl

theorem update_activity_error {s : Store} {aid : Nat} {d : ActivityCreate}
    {s' : Store} {e : String}
    (h : update_activity s aid d = (s', .error e)) : s' = s := by
  simp only [update_activity] at h
  repeat' split at h
  all_goals cases h
  all_goals rfl

/-! ## Preservation of the level invariant -/

theorem truthy_some {o : Option Nat} (h : truthyId o = true) :
    ∃ p, o = some p ∧ p ≠ 0 ∧ o.getD 0 = p := by
  cases o with
  | none => simp [truthyId] at h
  | some p =>
    refine ⟨p, rfl, ?_, rfl⟩
    simpa [truthyId] using h

theorem truthy_none {o : Option Nat} (h : ¬ (truthyId o = true)) :
    o = none ∨ o = some 0 := by
  cases o with
  | none => exact Or.inl rfl
  | some p =>
    right
    have : p = 0 := by simpa [truthyId] using h
    rw [this]

theorem desc_zero {acts : List Activity} (hp : IdsPos acts) (z : Nat) :
    ¬ DescSh (shape acts) 0 z := by
  rintro ⟨n, hc⟩
  cases hc with
  | cons he _ =>
    rcases mem_of_edgeSh he with ⟨a, ha, haid, _⟩
    exact hp a ha haid

theorem ids_eq_of_shape_eq {a b : List Activity} (h : shape a = shape b) :
    a.map (fun x => x.id) = b.map (fun x => x.id) := by
  rw [← shape_fst, ← shape_fst, h]

theorem idsPos_ids_eq {acts acts' : List Activity}
    (he : acts'.map (fun a => a.id) = acts.map (fun a => a.id))
    (hp : IdsPos acts) : IdsPos acts' := by
  intro a ha
  have : a.id ∈ acts.map (fun x => x.id) := by
    rw [← he]
    exact List.mem_map_of_mem _ ha
  rcases List.mem_map.mp this with ⟨b, hb, he2⟩
  rw [← he2]
  exact hp b hb

theorem findAct_none_of_ids_eq {a b : List Activity}
    (he : a.map (fun x => x.id) = b.map (fun x => x.id)) {q : Nat}
    (h : findAct a q = none) : findAct b q = none := by
  rw [findAct_eq_none_iff] at h ⊢
  intro x hx hxq
  have : x.id ∈ a.map (fun x => x.id) := by
    rw [he]
    exact List.mem_map_of_mem _ hx
  rcases List.mem_map.mp this with ⟨y, hy, hyx⟩
  exact h y hy (by rw [hyx, hxq])

theorem subok_clause {acts : List Activity} {y : Activity} (h : SubOk acts y) :
    y.level = expectedLevel acts y ∧ y.level ≤ 3 := by
  rcases h with ⟨q, P, hpar, hfq, hlv, hl3⟩
  have hl : lookupParent acts y = some P := by
    unfold lookupParent
    rw [hpar]
    exact hfq
  refine ⟨?_, hl3⟩
  unfold expectedLevel
  rw [hl]
  exact hlv

theorem expectedLevel_append {acts : List Activity} {b anew : Activity}
    (hqa : ∀ q, b.parent_id = some q → q ≠ anew.id) :
    expectedLevel (acts ++ [anew]) b = expectedLevel acts b := by
  have hl : lookupParent (acts ++ [anew]) b = lookupParent acts b := by
    unfold lookupParent
    cases hyp : b.parent_id with
    | none => rfl
    | some q =>
      show findAct (acts ++ [anew]) q = findAct acts q
      rw [findAct_append]
      cases hf : findAct acts q with
      | some p => rfl
      | none =>
        have h3 : findAct [anew] q = none := by
          rw [findAct_eq_none_iff]
          intro x hx
          rcases List.mem_singleton.mp hx with rfl
          exact fun he => (hqa q hyp) he.symm
        rw [h3]
        rfl
  unfold expectedLevel
  rw [hl]

theorem expectedLevel_new_elem {acts : List Activity} (hp : IdsPos acts)
    {newId lvl : Nat} (hnz : newId ≠ 0) {nm : String} {np : Option Nat}
    (hbr : ∀ q, np = some q →
      (∃ parent, findAct acts q = some parent ∧ lvl = parent.level + 1) ∨
        (q = 0 ∧ lvl = 1))
    (hbnone : np = none → lvl = 1) :
    lvl = expectedLevel (acts ++ [⟨newId, nm, np, lvl⟩]) ⟨newId, nm, np, lvl⟩ := by
  cases np with
  | none =>
    have h1 : lookupParent (acts ++ [(⟨newId, nm, none, lvl⟩ : Activity)])
        ⟨newId, nm, none, lvl⟩ = none := rfl
    unfold expectedLevel
    rw [h1]
    exact hbnone rfl
  | some q =>
    rcases hbr q rfl with ⟨parent, hfp, hlv⟩ | ⟨hq0, hlv⟩
    · have h1 : lookupParent (acts ++ [(⟨newId, nm, some q, lvl⟩ : Activity)])
          ⟨newId, nm, some q, lvl⟩ = some parent := by
        show findAct (acts ++ [⟨newId, nm, some q, lvl⟩]) q = some parent
        rw [findAct_append, hfp]
        rfl
      unfold expectedLevel
      rw [h1]
      exact hlv
    · subst hq0
      have h1 : lookupParent (acts ++ [(⟨newId, nm, some 0, lvl⟩ : Activity)])
          ⟨newId, nm, some 0, lvl⟩ = none := by
        show findAct (acts ++ [⟨newId, nm, some 0, lvl⟩]) 0 = none
        rw [findAct_eq_none_iff]
        intro x hx
        rcases List.mem_append.mp hx with hxo | hxn
        · exact hp x hxo
        · rcases List.mem_singleton.mp hxn with rfl
          exact hnz
      unfold expectedLevel
      rw [h1]
      exact hlv

/-- The three invariants after appending a fresh row whose level matches its
parent context. -/
theorem invariants_append {acts : List Activity} (hok : levelsOkL acts)
    (hn : NodupIds acts) (hp : IdsPos acts) {newId lvl : Nat} (hnz : newId ≠ 0)
    (hfr : ∀ a ∈ acts, a.id ≠ newId ∧ a.parent_id ≠ some newId) {nm : String}
    {np : Option Nat}
    (hbr : ∀ q, np = some q →
      (∃ parent, findAct acts q = some parent ∧ lvl = parent.level + 1) ∨
        (q = 0 ∧ lvl = 1))
    (hbnone : np = none → lvl = 1) (hl3 : lvl ≤ 3) :
    levelsOkL (acts ++ [⟨newId, nm, np, lvl⟩]) ∧
      NodupIds (acts ++ [⟨newId, nm, np, lvl⟩]) ∧
      IdsPos (acts ++ [⟨newId, nm, np, lvl⟩]) := by
  refine ⟨?_, ?_, ?_⟩
  · intro b hb
    rcases List.mem_append.mp hb with hbo | hbn
    · have hold := hok b hbo
      have hexp : expectedLevel (acts ++ [⟨newId, nm, np, lvl⟩]) b =
          expectedLevel acts b := by
        refine expectedLevel_append ?_
        intro q hq he
        exact (hfr b hbo).2 (by rw [hq, he])
      rw [hexp]
      exact hold
    · rcases List.mem_singleton.mp hbn with rfl
      exact ⟨expectedLevel_new_elem hp hnz hbr hbnone, hl3⟩
  · unfold NodupIds
    rw [List.map_append, List.nodup_append]
    refine ⟨hn, by simp, ?_⟩
    intro x hx
    rcases List.mem_map.mp hx with ⟨b, hb, hbx⟩
    simp only [List.map_cons, List.map_nil, List.mem_singleton]
    intro he
    exact (hfr b hb).1 (hbx.trans he)
  · intro b hb
    rcases List.mem_append.mp hb with hbo | hbn
    · exact hp b hbo
    · rcases List.mem_singleton.mp hbn with rfl
      exact hnz

/-- Invariants after a successful `create_activity` with a fresh id. -/
theorem create_activity_ok_inv {s : Store} (hok : levelsOk s)
    (hn : NodupIds s.activities) (hp : IdsPos s.activities) {newId : Nat}
    (hfresh : FreshId s newId) {d : ActivityCreate} {s' : Store} {a : Activity}
    (h : create_activity s newId d = (s', .ok a)) :
    levelsOk s' ∧ NodupIds s'.activities ∧ IdsPos s'.activities := by
  rcases hfresh with ⟨hnz, hfr⟩
  simp only [create_activity] at h
  split at h
  case _ e heq => cases h
  case _ lvl heq =>
    split at h
    case isTrue hdup => cases h
    case isFalse hdup =>
      cases h
      split at heq
      case isTrue htr =>
        rcases truthy_some htr with ⟨pd, hpd, hpd0, hget⟩
        rw [hget] at heq
        split at heq
        case h_1 hfp => cases heq
        case h_2 parent hfp =>
          split at heq
          case isTrue hpl => cases heq
          case isFalse hpl =>
            obtain rfl := Except.ok.inj heq
            refine invariants_append hok hn hp hnz hfr ?_ ?_ (by omega)
            · intro q hq
              rw [hpd] at hq
              obtain rfl := Option.some.inj hq
              exact Or.inl ⟨parent, hfp, rfl⟩
            · intro hnone
              rw [hpd] at hnone
              cases hnone
      case isFalse htr =>
        obtain rfl := Except.ok.inj heq
        rcases truthy_none htr with hdn | hd0
        · refine invariants_append hok hn hp hnz hfr ?_ (fun _ => rfl) (by omega)
          intro q hq
          rw [hdn] at hq
          cases hq
        · refine invariants_append hok hn hp hnz hfr ?_ (fun _ => rfl) (by omega)
          intro q hq
          rw [hd0] at hq
          obtain rfl := Option.some.inj hq
          exact Or.inr ⟨rfl, rfl⟩


/-- Invariants of the activity list after the in-session field update of the
target row followed by a successful subtree level recomputation. -/
theorem ucl_after_modify_inv {s : Store} (hok : levelsOk s)
    (hn : NodupIds s.activities) (hp : IdsPos s.activities) {aid : Nat}
    {a₀ : Activity} (ha₀m : a₀ ∈ s.activities) (ha₀id : a₀.id = aid)
    {nm : String} {np : Option Nat} {lvl : Nat}
    (hnp : ∀ p, np = some p → p ≠ aid ∧ ¬ DescSh (shape s.activities) p aid)
    (hbr : ∀ q, np = some q →
      (∃ parent, findAct s.activities q = some parent ∧ lvl = parent.level + 1) ∨
        (q = 0 ∧ lvl = 1))
    (hbnone : np = none → lvl = 1) (hl3 : lvl ≤ 3) {acts2 : List Activity}
    (hucl : update_children_levels 4 (modifyAct s.activities aid nm np lvl) aid =
      .ok acts2) :
    levelsOkL acts2 ∧ NodupIds acts2 ∧ IdsPos acts2 := by
  have hacy : AcyclicSh (shape s.activities) := acyclic_of_levelsOk hok hn
  have hacy1 : AcyclicSh (shape (modifyAct s.activities aid nm np lvl)) :=
    acyclic_modify hacy hnp
  have hn1 : NodupIds (modifyAct s.activities aid nm np lvl) :=
    modifyAct_nodup hn aid nm np lvl
  have hids1 : (modifyAct s.activities aid nm np lvl).map (fun a => a.id) =
      s.activities.map (fun a => a.id) := modifyAct_ids s.activities aid nm np lvl
  obtain ⟨hlc, hsub⟩ := ucl_spec 4 _ aid acts2 hn1 hacy1 hucl
  have hA1 : findAct (modifyAct s.activities aid nm np lvl) aid =
      some { a₀ with name := nm, parent_id := np, level := lvl } :=
    modifyAct_findAct_self hn ha₀m ha₀id nm np lvl
  have hsub' := hsub _ hA1
  have hids2 : acts2.map (fun a => a.id) = s.activities.map (fun a => a.id) := by
    rw [← ids_eq_of_shape_eq hlc.shape_eq]
    exact hids1
  have hn2 : NodupIds acts2 := hlc.nodupIds hn1
  have hp2 : IdsPos acts2 := idsPos_ids_eq hids2 hp
  have hnda : ¬ DescSh (shape (modifyAct s.activities aid nm np lvl)) aid aid :=
    not_desc_aid_modify hnp
  refine ⟨?_, hn2, hp2⟩
  intro y hy
  by_cases hdy : DescSh (shape (modifyAct s.activities aid nm np lvl)) y.id aid
  · exact subok_clause (hsub' y hy hdy)
  · by_cases hya : y.id = aid
    · have hfa2 : findAct acts2 aid =
          some { a₀ with name := nm, parent_id := np, level := lvl } :=
        hlc.findAct_frozen hA1 hnda
      have hA1mem : ({ a₀ with name := nm, parent_id := np, level := lvl } :
          Activity) ∈ acts2 := (findAct_some_mem hfa2).1
      have hyA1 : y = { a₀ with name := nm, parent_id := np, level := lvl } := by
        refine findAct_id_eq hn2 hy hA1mem ?_
        show y.id = a₀.id
        rw [hya, ha₀id]
      subst hyA1
      refine ⟨?_, hl3⟩
      cases np with
      | none =>
        have h1 : lookupParent acts2
            ({ a₀ with name := nm, parent_id := none, level := lvl } : Activity) =
              none := rfl
        unfold expectedLevel
        rw [h1]
        exact hbnone rfl
      | some pd =>
        rcases hbr pd rfl with ⟨parent, hfp, hlv⟩ | ⟨h0, hlv⟩
        · rcases hnp pd rfl with ⟨hpdne, hpdnd⟩
          have hfp1 : findAct (modifyAct s.activities aid nm (some pd) lvl) pd =
              some parent := by
            rw [modifyAct_findAct_other hpdne]
            exact hfp
          have hedgeA1 : edgeSh (shape (modifyAct s.activities aid nm (some pd) lvl))
              aid pd := by
            have hm := (findAct_some_mem hA1).1
            have he0 := edgeSh_of_mem hm
              (show ({ a₀ with name := nm, parent_id := some pd, level := lvl } :
                Activity).parent_id = some pd from rfl)
            have he : edgeSh (shape (modifyAct s.activities aid nm (some pd) lvl))
                a₀.id pd := he0
            rw [ha₀id] at he
            exact he
          have hprot : ¬ DescSh (shape (modifyAct s.activities aid nm (some pd) lvl))
              pd aid := by
            rintro ⟨n, hc⟩
            exact hnda ⟨n + 1, ChainN.cons hedgeA1 hc⟩
          have hfp2 : findAct acts2 pd = some parent := hlc.findAct_frozen hfp1 hprot
          have h1 : lookupParent acts2
              ({ a₀ with name := nm, parent_id := some pd, level := lvl } : Activity) =
                some parent := by
            show findAct acts2 pd = some parent
            exact hfp2
          unfold expectedLevel
          rw [h1]
          exact hlv
        · subst h0
          have h1 : lookupParent acts2
              ({ a₀ with name := nm, parent_id := some 0, level := lvl } : Activity) =
                none := by
            show findAct acts2 0 = none
            rw [findAct_eq_none_iff]
            intro x hx
            exact hp2 x hx
          unfold expectedLevel
          rw [h1]
          exact hlv
    · rcases hlc.mem_right hy with ⟨y₁, hy₁m, hagr⟩
      have hyy : y = y₁ := by
        refine hagr.eq_of_not ?_
        intro hd
        apply hdy
        rw [hagr.1]
        exact hd
      have hy1 : y ∈ modifyAct s.activities aid nm np lvl := by
        rw [hyy]
        exact hy₁m
      have hyo : y ∈ s.activities := by
        unfold modifyAct at hy1
        rcases List.mem_map.mp hy1 with ⟨x0, hx0, hfx0⟩
        by_cases hba : (x0.id == aid) = true
        · rw [if_pos hba] at hfx0
          exfalso
          apply hya
          rw [← hfx0]
          simpa using hba
        · rw [if_neg hba] at hfx0
          rw [← hfx0]
          exact hx0
      have hold := hok y hyo
      have hexp : expectedLevel acts2 y = expectedLevel s.activities y := by
        cases hyp : y.parent_id with
        | none =>
          have h1 : lookupParent acts2 y = none := by
            unfold lookupParent
            rw [hyp]
          have h2 : lookupParent s.activities y = none := by
            unfold lookupParent
            rw [hyp]
          unfold expectedLevel
          rw [h1, h2]
        | some q =>
          have hqa : q ≠ aid := by
            intro hqe
            apply hdy
            subst hqe
            exact desc_of_edge (edgeSh_of_mem hy1 hyp)
          cases hfq : findAct s.activities q with
          | some pq =>
            have hf1 : findAct (modifyAct s.activities aid nm np lvl) q = some pq := by
              rw [modifyAct_findAct_other hqa]
              exact hfq
            have hqprot : ¬ DescSh (shape (modifyAct s.activities aid nm np lvl))
                q aid := by
              rintro ⟨n, hc⟩
              exact hdy ⟨n + 1, ChainN.cons (edgeSh_of_mem hy1 hyp) hc⟩
            have hf2 : findAct acts2 q = some pq := hlc.findAct_frozen hf1 hqprot
            have h1 : lookupParent acts2 y = some pq := by
              unfold lookupParent
              rw [hyp]
              exact hf2
            have h2 : lookupParent s.activities y = some pq := by
              unfold lookupParent
              rw [hyp]
              exact hfq
            unfold expectedLevel
            rw [h1, h2]
          | none =>
            have hf2 : findAct acts2 q = none :=
              findAct_none_of_ids_eq hids2.symm hfq
            have h1 : lookupParent acts2 y = none := by
              unfold lookupParent
              rw [hyp]
              exact hf2
            have h2 : lookupParent s.activities y = none := by
              unfold lookupParent
              rw [hyp]
              exact hfq
            unfold expectedLevel
            rw [h1, h2]
      rw [hexp]
      exact hold

/-- Invariants after a successful `update_activity`. -/
theorem update_activity_ok_inv {s : Store} (hok : levelsOk s)
    (hn : NodupIds s.activities) (hp : IdsPos s.activities) {aid : Nat}
    {d : ActivityCreate} {s' : Store} {v : Option Activity}
    (h : update_activity s aid d = (s', .ok v)) :
    levelsOk s' ∧ NodupIds s'.activities ∧ IdsPos s'.activities := by
  simp only [update_activity] at h
  split at h
  case h_1 hfind =>
    cases h
    exact ⟨hok, hn, hp⟩
  case h_2 a₀ hfind =>
    have ha₀ := findAct_some_mem hfind
    have haid0 : aid ≠ 0 := by
      rw [← ha₀.2]
      exact hp a₀ ha₀.1
    split at h
    case h_1 e heq => cases h
    case h_2 lvl heq =>
      split at h
      case isTrue hdup => cases h
      case isFalse hdup =>
        split at h
        case h_1 e hucl => cases h
        case h_2 acts2 hucl =>
          cases h
          split at heq
          case isTrue htr =>
            rcases truthy_some htr with ⟨pd, hpd, hpd0, hget⟩
            rw [hget] at heq
            split at heq
            case isTrue hwcc => cases heq
            case isFalse hwcc =>
              have hwccf : would_create_cycle s aid pd = false := by
                simpa using hwcc
              have hnd := not_desc_of_wcc_false hok hn hp ⟨a₀, ha₀.1, ha₀.2⟩ hwccf
              split at heq
              case h_1 hfp => cases heq
              case h_2 parent hfp =>
                split at heq
                case isTrue hpl => cases heq
                case isFalse hpl =>
                  obtain rfl := Except.ok.inj heq
                  exact ucl_after_modify_inv hok hn hp ha₀.1 ha₀.2
                    (fun p hp' => by
                      rw [hpd] at hp'
                      obtain rfl := Option.some.inj hp'
                      exact hnd)
                    (fun q hq => by
                      rw [hpd] at hq
                      obtain rfl := Option.some.inj hq
                      exact Or.inl ⟨parent, hfp, rfl⟩)
                    (fun hnone => by rw [hpd] at hnone; cases hnone)
                    (by omega) hucl
          case isFalse htr =>
            obtain rfl := Except.ok.inj heq
            rcases truthy_none htr with hdn | hd0
            · exact ucl_after_modify_inv hok hn hp ha₀.1 ha₀.2
                (fun p hp' => by rw [hdn] at hp'; cases hp')
                (fun q hq => by rw [hdn] at hq; cases hq)
                (fun _ => rfl) (by omega) hucl
            · exact ucl_after_modify_inv hok hn hp ha₀.1 ha₀.2
                (fun p hp' => by
                  rw [hd0] at hp'
                  obtain rfl := Option.some.inj hp'
                  exact ⟨fun he => haid0 he.symm, desc_zero hp aid⟩)
                (fun q hq => by
                  rw [hd0] at hq
                  obtain rfl := Option.some.inj hq
                  exact Or.inr ⟨rfl, rfl⟩)
                (fun _ => rfl) (by omega) hucl

/-! ## Success shapes of the activity operations -/

theorem create_activity_ok_shape {s : Store} {newId : Nat} {d : ActivityCreate}
    {s' : Store} {a : Activity} (h : create_activity s newId d = (s', .ok a)) :
    ∃ lvl, a = ⟨newId, d.name, d.parent_id, lvl⟩ ∧
      s' = { s with activities := s.activities ++ [a] } ∧
      (s.activities.any (fun b => b.name == d.name && b.parent_id == d.parent_id)) =
        false := by
  simp only [create_activity] at h
  split at h
  case h_1 e heq => cases h
  case h_2 lvl heq =>
    split at h
    case isTrue hdup => cases h
    case isFalse hdup =>
      cases h
      exact ⟨lvl, rfl, rfl, by simpa using hdup⟩

theorem update_activity_ok_shape {s : Store} {aid : Nat} {d : ActivityCreate}
    {s' : Store} {v : Option Activity} (h : update_activity s aid d = (s', .ok v)) :
    (findAct s.activities aid = none ∧ s' = s ∧ v = none) ∨
    (∃ a₀ lvl acts2, findAct s.activities aid = some a₀ ∧
      (s.activities.any (fun b =>
        b.name == d.name && b.parent_id == d.parent_id && b.id != aid)) = false ∧
      update_children_levels 4 (modifyAct s.activities aid d.name d.parent_id lvl)
        aid = .ok acts2 ∧
      s' = { s with activities := acts2 } ∧ v = findAct acts2 aid) := by
  simp only [update_activity] at h
  split at h
  case h_1 hfind =>
    cases h
    exact Or.inl ⟨hfind, rfl, rfl⟩
  case h_2 a₀ hfind =>
    split at h
    case h_1 e heq => cases h
    case h_2 lvl heq =>
      split at h
      case isTrue hdup => cases h
      case isFalse hdup =>
        split at h
        case h_1 e hucl => cases h
        case h_2 acts2 hucl =>
          cases h
          exact Or.inr ⟨a₀, lvl, acts2, hfind, by simpa using hdup, hucl, rfl, rfl⟩

/-! ## The recomputation never touches ids, names or parents -/

theorem ucl_go_levelChange_true (fuel : Nat)
    (hrec : ∀ acts pid acts', update_children_levels fuel acts pid = .ok acts' →
      LevelChange (fun _ => True) acts acts') :
    ∀ (kids : List Activity) (plvl : Nat) (acts acts' : List Activity),
      ucl_go (update_children_levels fuel) plvl kids acts = .ok acts' →
      LevelChange (fun _ => True) acts acts' := by
  intro kids
  induction kids with
  | nil =>
    intro plvl acts acts' hgo
    simp only [ucl_go] at hgo
    obtain rfl := Except.ok.inj hgo
    exact LevelChange.refl _
  | cons k ks ih =>
    intro plvl acts acts' hgo
    by_cases hple : plvl + 1 ≤ 3
    case neg =>
      exfalso
      simp [ucl_go, hple] at hgo
    case pos =>
    simp only [ucl_go, if_pos hple] at hgo
    cases hrec2 : update_children_levels fuel (setLevel acts k.id (plvl + 1)) k.id with
    | error e =>
      exfalso
      rw [hrec2] at hgo
      cases hgo
    | ok acts2 =>
      rw [hrec2] at hgo
      have c1 : LevelChange (fun _ => True) acts (setLevel acts k.id (plvl + 1)) :=
        (setLevel_levelChange acts k.id (plvl + 1)).mono (fun _ _ => trivial)
      have c2 := hrec _ _ _ hrec2
      have c3 := ih plvl acts2 acts' hgo
      exact (c1.trans c2).trans c3

theorem ucl_levelChange_true :
    ∀ (fuel : Nat) (acts : List Activity) (pid : Nat) (acts' : List Activity),
      update_children_levels fuel acts pid = .ok acts' →
      LevelChange (fun _ => True) acts acts' := by
  intro fuel
  induction fuel with
  | zero =>
    intro acts pid acts' h
    simp [update_children_levels] at h
  | succ f ih =>
    intro acts pid acts' h
    simp only [update_children_levels] at h
    split at h
    case h_1 hf =>
      obtain rfl := Except.ok.inj h
      exact LevelChange.refl _
    case h_2 parent hf =>
      exact ucl_go_levelChange_true f ih _ _ _ _ h

/-! ## Sibling uniqueness -/

theorem pairwise_pairs_of_levelChange {D : Nat → Prop} {a b : List Activity}
    (h : LevelChange D a b)
    (hp : List.Pairwise (fun x y => ¬(x.name = y.name ∧ x.parent_id = y.parent_id)) a) :
    List.Pairwise (fun x y => ¬(x.name = y.name ∧ x.parent_id = y.parent_id)) b := by
  induction h with
  | nil => exact List.Pairwise.nil
  | @cons x₀ b₀ l l' ha htail ih =>
    rcases List.pairwise_cons.mp hp with ⟨hhead, htl⟩
    refine List.pairwise_cons.mpr ⟨?_, ih htl⟩
    intro y' hy'
    rcases LevelChange.mem_right htail hy' with ⟨x', hx', hagr'⟩
    have hx := hhead x' hx'
    rintro ⟨hnm, hpr⟩
    apply hx
    refine ⟨?_, ?_⟩
    · rw [← ha.2.1, ← hagr'.2.1]
      exact hnm
    · rw [← ha.2.2.1, ← hagr'.2.2.1]
      exact hpr

theorem pairsUnique_modify {acts : List Activity} (hn : NodupIds acts)
    (hpu : List.Pairwise (fun x y => ¬(x.name = y.name ∧ x.parent_id = y.parent_id)) acts)
    {aid : Nat} {nm : String} {np : Option Nat} {lvl : Nat}
    (hdupf : (acts.any (fun b => b.name == nm && b.parent_id == np && b.id != aid)) =
      false) :
    List.Pairwise (fun x y => ¬(x.name = y.name ∧ x.parent_id = y.parent_id))
      (modifyAct acts aid nm np lvl) := by
  have hidpw : List.Pairwise (fun x y : Activity => x.id ≠ y.id) acts := by
    have h2 : List.Pairwise (fun x y : Nat => x ≠ y) (acts.map (fun a => a.id)) := hn
    exact List.pairwise_map.mp h2
  have hcomb := hpu.and hidpw
  have hanyf := List.any_eq_false.mp hdupf
  unfold modifyAct
  rw [List.pairwise_map]
  refine hcomb.imp_of_mem ?_
  intro a b ha hb hr
  rcases hr with ⟨hpd, hne⟩
  by_cases haa : (a.id == aid) = true
  · by_cases hbb : (b.id == aid) = true
    · exfalso
      apply hne
      rw [show a.id = aid by simpa using haa, show b.id = aid by simpa using hbb]
    · rw [if_pos haa, if_neg hbb]
      rintro ⟨hnm, hpr⟩
      have hnm2 : nm = b.name := hnm
      have hpr2 : np = b.parent_id := hpr
      refine hanyf b hb ?_
      simp only [Bool.and_eq_true]
      refine ⟨⟨?_, ?_⟩, ?_⟩
      · simp [hnm2.symm]
      · simp [hpr2.symm]
      · simpa using (show b.id ≠ aid by simpa using hbb)
  · by_cases hbb : (b.id == aid) = true
    · rw [if_neg haa, if_pos hbb]
      rintro ⟨hnm, hpr⟩
      have hnm2 : a.name = nm := hnm
      have hpr2 : a.parent_id = np := hpr
      refine hanyf a ha ?_
      simp only [Bool.and_eq_true]
      refine ⟨⟨?_, ?_⟩, ?_⟩
      · simp [hnm2]
      · simp [hpr2]
      · simpa using (show a.id ≠ aid by simpa using haa)
    · rw [if_neg haa, if_neg hbb]
      exact hpd

/-! ## Totality of the recomputation under the depth bound -/


theorem ucl_go_total (fuel : Nat) (hrec : UclTotalAt fuel) :
    ∀ (kids : List Activity) (plvl : Nat) (acts : List Activity) (pid : Nat)
      (P : Activity),
      NodupIds acts → AcyclicSh (shape acts) →
      (∀ k ∈ kids, k ∈ acts ∧ k.parent_id = some pid) →
      (kids.map (fun k => k.id)).Nodup →
      findAct acts pid = some P → P.level = plvl →
      (∀ x n, ChainN (shape acts) (n + 1) x pid → plvl + n + 1 ≤ 3) →
      3 < fuel + plvl + 1 →
      ∃ acts', ucl_go (update_children_levels fuel) plvl kids acts = .ok acts' := by
  intro kids
  induction kids with
  | nil =>
    intro plvl acts pid P hn hacy hkm hknd hfp hPl hchain hfuel
    exact ⟨acts, rfl⟩
  | cons k ks ih =>
    intro plvl acts pid P hn hacy hkm hknd hfp hPl hchain hfuel
    rcases hkm k (List.mem_cons_self _ _) with ⟨hkmem, hkpar⟩
    have hek : edgeSh (shape acts) k.id pid := edgeSh_of_mem hkmem hkpar
    have hguard : plvl + 1 ≤ 3 := by
      have := hchain k.id 0 (ChainN.cons hek (ChainN.refl _))
      omega
    have hlc1 : LevelChange (fun x => x = k.id) acts (setLevel acts k.id (plvl + 1)) :=
      setLevel_levelChange acts k.id (plvl + 1)
    have hsh1 : shape (setLevel acts k.id (plvl + 1)) = shape acts := hlc1.shape_eq.symm
    have hn1 : NodupIds (setLevel acts k.id (plvl + 1)) := hlc1.nodupIds hn
    have hacy1 : AcyclicSh (shape (setLevel acts k.id (plvl + 1))) := by
      rw [hsh1]
      exact hacy
    have hk1 : findAct (setLevel acts k.id (plvl + 1)) k.id =
        some { k with level := plvl + 1 } := setLevel_findAct_self hn hkmem _
    have hchain1 : ∀ x n,
        ChainN (shape (setLevel acts k.id (plvl + 1))) (n + 1) x k.id →
          ({ k with level := plvl + 1 } : Activity).level + n + 1 ≤ 3 := by
      intro x n hc
      rw [hsh1] at hc
      have hext : ChainN (shape acts) (n + 1 + 1) x pid :=
        hc.append (ChainN.cons hek (ChainN.refl _))
      have := hchain x (n + 1) hext
      show plvl + 1 + n + 1 ≤ 3
      omega
    obtain ⟨acts2, hok2⟩ := hrec _ k.id _ hn1 hacy1 hk1 (by show plvl + 1 ≤ 3; omega)
      hchain1 (by show 3 < fuel + (plvl + 1); omega)
    -- transport the remaining siblings to acts2
    obtain ⟨hlc2, _⟩ := ucl_spec fuel _ k.id acts2 hn1 hacy1 hok2
    rw [hsh1] at hlc2
    have hpidprot := no_desc_self_child hacy hek
    have hf1P : findAct (setLevel acts k.id (plvl + 1)) pid = some P :=
      hlc1.findAct_frozen hfp hpidprot.1
    have hf2P : findAct acts2 pid = some P := hlc2.findAct_frozen hf1P hpidprot.2
    have hn2 : NodupIds acts2 := hlc2.nodupIds hn1
    have hsh2 : shape acts2 = shape acts := by
      rw [← hlc2.shape_eq]
      exact hsh1
    have hacy2 : AcyclicSh (shape acts2) := by
      rw [hsh2]
      exact hacy
    have hksid : ∀ k' ∈ ks, k'.id ≠ k.id := by
      intro k' hk' he
      have : k.id ∈ ks.map (fun x => x.id) := by
        rw [← he]
        exact List.mem_map_of_mem _ hk'
      exact (List.nodup_cons.mp hknd).1 this
    have hks2 : ∀ k' ∈ ks, k' ∈ acts2 ∧ k'.parent_id = some pid := by
      intro k' hk'
      rcases hkm k' (List.mem_cons_of_mem _ hk') with ⟨hk'm, hk'p⟩
      have hek' : edgeSh (shape acts) k'.id pid := edgeSh_of_mem hk'm hk'p
      have h1 : k' ∈ setLevel acts k.id (plvl + 1) :=
        hlc1.mem_frozen hk'm (hksid k' hk')
      exact ⟨hlc2.mem_frozen h1 (sibling_not_desc hn hacy hek hek'), hk'p⟩
    have hchain2 : ∀ x n, ChainN (shape acts2) (n + 1) x pid → plvl + n + 1 ≤ 3 := by
      intro x n hc
      rw [hsh2] at hc
      exact hchain x n hc
    obtain ⟨acts', hgo'⟩ := ih plvl acts2 pid P hn2 hacy2 hks2
      (List.nodup_cons.mp hknd).2 hf2P hPl hchain2 hfuel
    refine ⟨acts', ?_⟩
    simp only [ucl_go, if_pos hguard]
    rw [hok2]
    exact hgo'

theorem ucl_total : ∀ fuel, UclTotalAt fuel := by
  intro fuel
  induction fuel with
  | zero =>
    intro acts pid P hn hacy hfp hP3 hchain hfuel
    omega
  | succ f ih =>
    intro acts pid P hn hacy hfp hP3 hchain hfuel
    have hkm : ∀ k ∈ acts.filter (fun a => a.parent_id == some pid),
        k ∈ acts ∧ k.parent_id = some pid := by
      intro k hk
      have := List.mem_filter.mp hk
      exact ⟨this.1, by simpa using this.2⟩
    have hknd : ((acts.filter (fun a => a.parent_id == some pid)).map
        (fun k => k.id)).Nodup := by
      refine List.Nodup.sublist (List.Sublist.map _ (List.filter_sublist _)) ?_
      exact hn
    obtain ⟨acts', hgo⟩ := ucl_go_total f ih _ P.level acts pid P hn hacy hkm hknd
      hfp rfl (fun x n hc => hchain x n hc) (by omega)
    refine ⟨acts', ?_⟩
    simp only [update_children_levels, hfp]
    exact hgo

/-- Every stored level is at least 1 under the invariant. -/
theorem level_pos {acts : List Activity} (hok : levelsOkL acts) {a : Activity}
    (ha : a ∈ acts) : 1 ≤ a.level := by
  have h := (hok a ha).1
  unfold expectedLevel at h
  rcases hl : lookupParent acts a with _ | p
  · rw [hl] at h
    have h1 : a.level = 1 := h
    omega
  · rw [hl] at h
    have h1 : a.level = p.level + 1 := h
    omega

/-- A cycle walk on an unresolvable non-zero candidate parent ends at once. -/
theorem wcc_unresolved {s : Store} {aid p : Nat} (hp0 : p ≠ 0) (hpa : p ≠ aid)
    (hfp : findAct s.activities p = none) : would_create_cycle s aid p = false := by
  unfold would_create_cycle
  have hstep : s.activities.length + 4 = (s.activities.length + 3) + 1 := rfl
  rw [hstep]
  have hb0 : (p == 0) = false := by simpa using hp0
  have hba : (p == aid) = false := by simpa using hpa
  simp [wccAux, hb0, hba, hfp]

/-! ## The claims -/

/-- C1: every stored activity's level equals its parent's level + 1 (1 when
parentless) and never exceeds 3: both `create_activity` (with a fresh
generated id) and `update_activity` preserve this invariant whenever they
succeed, and every rejected call leaves the store unchanged. -/
theorem c1_level_invariant :
    ∀ s : Store, levelsOk s → NodupIds s.activities → IdsPos s.activities →
      (∀ (newId : Nat) (d : ActivityCreate) (s' : Store) (r : Except String Activity),
        FreshId s newId → create_activity s newId d = (s', r) →
        ((∃ e, r = .error e) → s' = s) ∧
        (∀ a, r = .ok a →
          levelsOk s' ∧ NodupIds s'.activities ∧ IdsPos s'.activities)) ∧
      (∀ (aid : Nat) (d : ActivityCreate) (s' : Store)
        (r : Except String (Option Activity)),
        update_activity s aid d = (s', r) →
        ((∃ e, r = .error e) → s' = s) ∧
        (∀ v, r = .ok v →
          levelsOk s' ∧ NodupIds s'.activities ∧ IdsPos s'.activities)) := by
  intro s hok hn hp
  constructor
  · intro newId d s' r hfresh hc
    constructor
    · rintro ⟨e, rfl⟩
      exact create_activity_error hc
    · rintro a rfl
      exact create_activity_ok_inv hok hn hp hfresh hc
  · intro aid d s' r hc
    constructor
    · rintro ⟨e, rfl⟩
      exact update_activity_error hc
    · rintro v rfl
      exact update_activity_ok_inv hok hn hp hc

theorem c1_level_invariant_witness :
    levelsOk (update_activity
      ⟨[], [⟨1, "A", none, 1⟩, ⟨2, "B", some 1, 2⟩, ⟨3, "C", some 2, 3⟩], [], [], []⟩
      2 ⟨"B", none, 1⟩).1 := by
  have h := ((c1_level_invariant
      ⟨[], [⟨1, "A", none, 1⟩, ⟨2, "B", some 1, 2⟩, ⟨3, "C", some 2, 3⟩], [], [], []⟩
      (by decide) (by decide) (by decide)).2 2 ⟨"B", none, 1⟩ _ _ rfl).2
      (some ⟨2, "B", none, 1⟩) (by rfl)
  exact h.1

/-- C2: at most one activity exists for every (name, parent_id) pair:
creation of a duplicate pair never succeeds, an update that would collide
with another row is rejected with the store unchanged, and both operations
preserve pairwise uniqueness when they succeed. -/
theorem c2_sibling_uniqueness :
    ∀ s : Store, pairsUnique s → NodupIds s.activities →
      (∀ (newId : Nat) (d : ActivityCreate),
        ((∃ b ∈ s.activities, b.name = d.name ∧ b.parent_id = d.parent_id) →
          ∀ s' a, create_activity s newId d ≠ (s', .ok a)) ∧
        (∀ s' a, create_activity s newId d = (s', .ok a) → pairsUnique s')) ∧
      (∀ (aid : Nat) (d : ActivityCreate),
        ((∃ a₀ ∈ s.activities, a₀.id = aid) →
          (∃ b ∈ s.activities, b.name = d.name ∧ b.parent_id = d.parent_id ∧
            b.id ≠ aid) →
          ∃ e, update_activity s aid d = (s, .error e)) ∧
        (∀ s' v, update_activity s aid d = (s', .ok v) → pairsUnique s')) := by
  intro s hpu hn
  constructor
  · intro newId d
    constructor
    · rintro ⟨b, hbm, hbn, hbp⟩ s' a hc
      obtain ⟨lvl, _, _, hanyf⟩ := create_activity_ok_shape hc
      have := List.any_eq_false.mp hanyf b hbm
      apply this
      simp [hbn, hbp]
    · intro s' a hc
      obtain ⟨lvl, ha, hs, hanyf⟩ := create_activity_ok_shape hc
      rw [hs]
      unfold pairsUnique
      simp only
      rw [List.pairwise_append]
      refine ⟨hpu, by simp, ?_⟩
      intro x hx y hy
      rcases List.mem_singleton.mp hy with rfl
      rintro ⟨hnm, hpr⟩
      have := List.any_eq_false.mp hanyf x hx
      apply this
      rw [ha] at hnm hpr
      simp only at hnm hpr
      simp [hnm, hpr]
  · intro aid d
    constructor
    · rintro ⟨a₀, ha₀m, ha₀id⟩ ⟨b, hbm, hbn, hbp, hbne⟩
      rcases hr : update_activity s aid d with ⟨s', r⟩
      cases r with
      | error e =>
        have hse := update_activity_error hr
        subst hse
        exact ⟨e, rfl⟩
      | ok v =>
        exfalso
        rcases update_activity_ok_shape hr with ⟨hnone, _, _⟩ |
          ⟨a₀', lvl, acts2, _, hdupf, _, _, _⟩
        · rw [← ha₀id, findAct_of_mem_nodup hn ha₀m] at hnone
          cases hnone
        · have := List.any_eq_false.mp hdupf b hbm
          apply this
          simp [hbn, hbp, hbne]
    · intro s' v hc
      rcases update_activity_ok_shape hc with ⟨_, hs, _⟩ |
        ⟨a₀, lvl, acts2, hfind, hdupf, hucl, hs, _⟩
      · rw [hs]
        exact hpu
      · rw [hs]
        unfold pairsUnique
        simp only
        refine pairwise_pairs_of_levelChange (ucl_levelChange_true 4 _ aid acts2 hucl) ?_
        exact pairsUnique_modify hn hpu hdupf

theorem c2_sibling_uniqueness_witness :
    (∀ s' a, create_activity
        ⟨[], [⟨1, "A", none, 1⟩, ⟨2, "B", none, 1⟩], [], [], []⟩ 9
        ⟨"A", none, 1⟩ ≠ (s', .ok a)) ∧
    (∃ e, update_activity
        ⟨[], [⟨1, "A", none, 1⟩, ⟨2, "B", none, 1⟩], [], [], []⟩ 2
        ⟨"A", none, 1⟩ =
      (⟨[], [⟨1, "A", none, 1⟩, ⟨2, "B", none, 1⟩], [], [], []⟩, .error e)) := by
  have h := c2_sibling_uniqueness
    ⟨[], [⟨1, "A", none, 1⟩, ⟨2, "B", none, 1⟩], [], [], []⟩ (by decide) (by decide)
  constructor
  · exact (h.1 9 ⟨"A", none, 1⟩).1 ⟨⟨1, "A", none, 1⟩, by decide, rfl, rfl⟩
  · exact (h.2 2 ⟨"A", none, 1⟩).1 ⟨⟨2, "B", none, 1⟩, by decide, rfl⟩
      ⟨⟨1, "A", none, 1⟩, by decide, rfl, rfl, by decide⟩

/-- C3: re-parenting an activity under itself or under any of its
descendants is rejected by the cycle check (the walk up the parent chain
from the candidate parent reaches the activity's id) before any mutation,
and the stored tree is unchanged. -/
theorem c3_cycle_rejection :
    ∀ (s : Store) (aid pid : Nat) (d : ActivityCreate),
      levelsOk s → NodupIds s.activities → IdsPos s.activities →
      (∃ a ∈ s.activities, a.id = aid) →
      d.parent_id = some pid →
      (pid = aid ∨ DescSh (shape s.activities) pid aid) →
      update_activity s aid d =
        (s, .error "update would create a circular dependency") := by
  intro s aid pid d hok hn hp hstored hdp hdesc
  have hpid0 : pid ≠ 0 := by
    rcases hdesc with rfl | ⟨n, hc⟩
    · rcases hstored with ⟨a, ha, haid⟩
      exact fun he => hp a ha (haid.trans he)
    · cases hc with
      | cons he _ =>
        rcases mem_of_edgeSh he with ⟨a, ha, haid2, _⟩
        exact fun he0 => hp a ha (haid2.trans he0)
  have htr : truthyId (some pid) = true := by
    simp [truthyId, hpid0]
  have hwcc : would_create_cycle s aid pid = true :=
    wcc_true_of_desc hok hn hp hstored hdesc
  rcases hstored with ⟨a₀, ha₀m, ha₀id⟩
  have hfind : findAct s.activities aid = some a₀ := by
    rw [← ha₀id]
    exact findAct_of_mem_nodup hn ha₀m
  simp [update_activity, hfind, hdp, htr, hwcc]

theorem c3_cycle_rejection_witness :
    update_activity ⟨[], [⟨1, "A", none, 1⟩, ⟨2, "B", some 1, 2⟩], [], [], []⟩ 1
        ⟨"A", some 2, 1⟩ =
      (⟨[], [⟨1, "A", none, 1⟩, ⟨2, "B", some 1, 2⟩], [], [], []⟩,
        .error "update would create a circular dependency") := by
  refine c3_cycle_rejection _ 1 2 ⟨"A", some 2, 1⟩ (by decide) (by decide) (by decide)
    ⟨⟨1, "A", none, 1⟩, by decide, rfl⟩ rfl ?_
  exact Or.inr ⟨0, ChainN.cons (by decide) (ChainN.refl 1)⟩

/-- C10: a parent_id of 0 is falsy in Python, so both create_activity and
update_activity skip the whole parent branch instead of reporting
"parent activity not found": the activity is stored as a root with level
forced to 1 and parent_id still recorded as 0, while any other dangling
parent id is rejected. -/
theorem c10_parent_zero_truthiness :
    (∀ (s : Store) (newId : Nat) (d : ActivityCreate),
      d.parent_id = some 0 →
      (s.activities.any (fun b => b.name == d.name && b.parent_id == some 0)) = false →
      create_activity s newId d =
        ({ s with activities := s.activities ++ [⟨newId, d.name, some 0, 1⟩] },
          .ok ⟨newId, d.name, some 0, 1⟩)) ∧
    (∀ (s : Store) (newId : Nat) (d : ActivityCreate) (p : Nat),
      d.parent_id = some p → p ≠ 0 → findAct s.activities p = none →
      create_activity s newId d = (s, .error "parent activity not found")) ∧
    (∀ (s : Store) (aid : Nat) (d : ActivityCreate) (a₀ : Activity),
      levelsOk s → NodupIds s.activities → IdsPos s.activities →
      a₀ ∈ s.activities → a₀.id = aid → d.parent_id = some 0 →
      (s.activities.any (fun b =>
        b.name == d.name && b.parent_id == some 0 && b.id != aid)) = false →
      ∃ acts2, update_activity s aid d =
        ({ s with activities := acts2 }, .ok (some ⟨aid, d.name, some 0, 1⟩))) ∧
    (∀ (s : Store) (aid : Nat) (d : ActivityCreate) (a₀ : Activity) (p : Nat),
      NodupIds s.activities → a₀ ∈ s.activities → a₀.id = aid →
      d.parent_id = some p → p ≠ 0 → findAct s.activities p = none →
      update_activity s aid d = (s, .error "parent activity not found")) := by
  refine ⟨?_, ?_, ?_, ?_⟩
  · intro s newId d hdp hdupf
    have htr : truthyId (some 0) = false := rfl
    simp [create_activity, hdp, htr, hdupf]
  · intro s newId d p hdp hp0 hfp
    have htr : truthyId (some p) = true := by
      simp [truthyId, hp0]
    simp [create_activity, hdp, htr, hfp]
  · intro s aid d a₀ hok hn hp ha₀m ha₀id hdp hdupf
    obtain ⟨i, an, ap, al⟩ := a₀
    simp only at ha₀id
    have hia : aid = i := ha₀id.symm
    subst hia
    have hfind : findAct s.activities aid = some ⟨aid, an, ap, al⟩ :=
      findAct_of_mem_nodup hn ha₀m
    have hacy : AcyclicSh (shape s.activities) := acyclic_of_levelsOk hok hn
    have haid0 : aid ≠ 0 := fun he => hp _ ha₀m he
    have hnp : ∀ q, (some 0 : Option Nat) = some q →
        q ≠ aid ∧ ¬ DescSh (shape s.activities) q aid := by
      rintro q hq
      obtain rfl : (0 : Nat) = q := Option.some.inj hq
      exact ⟨fun he => haid0 he.symm, desc_zero hp aid⟩
    have hn1 : NodupIds (modifyAct s.activities aid d.name (some 0) 1) :=
      modifyAct_nodup hn aid d.name (some 0) 1
    have hacy1 : AcyclicSh (shape (modifyAct s.activities aid d.name (some 0) 1)) :=
      acyclic_modify hacy hnp
    have hfA1 : findAct (modifyAct s.activities aid d.name (some 0) 1) aid =
        some ⟨aid, d.name, some 0, 1⟩ :=
      modifyAct_findAct_self hn ha₀m rfl d.name (some 0) 1
    have hchain : ∀ x n,
        ChainN (shape (modifyAct s.activities aid d.name (some 0) 1)) (n + 1) x aid →
          (⟨aid, d.name, some 0, 1⟩ : Activity).level + n + 1 ≤ 3 := by
      intro x n hc
      rcases chain_modify_to_aid hnp hc with ⟨_, habs⟩ | hold
      · omega
      · have hxm : ∃ a ∈ s.activities, a.id = x := by
          cases hold with
          | cons he _ =>
            rcases mem_of_edgeSh he with ⟨a, ha, haid2, _⟩
            exact ⟨a, ha, haid2⟩
        rcases hxm with ⟨ax, haxm, haxid⟩
        have hfx : findAct s.activities x = some ax := by
          rw [← haxid]
          exact findAct_of_mem_nodup hn haxm
        have hlev := chain_level hok hn hold hfx hfind
        have hx3 : ax.level ≤ 3 := (hok ax haxm).2
        have hz1 : 1 ≤ al := by
          have := level_pos hok ha₀m
          simpa using this
        show 1 + n + 1 ≤ 3
        simp only at hlev
        omega
    obtain ⟨acts2, hucl⟩ := ucl_total 4 _ aid _ hn1 hacy1 hfA1
      (by show 1 ≤ 3; omega) hchain (by show 3 < 4 + 1; omega)
    obtain ⟨hlc, _⟩ := ucl_spec 4 _ aid acts2 hn1 hacy1 hucl
    have hfa2 : findAct acts2 aid = some ⟨aid, d.name, some 0, 1⟩ :=
      hlc.findAct_frozen hfA1 (not_desc_aid_modify hnp)
    refine ⟨acts2, ?_⟩
    have htr : truthyId (some 0) = false := rfl
    simp [update_activity, hfind, hdp, htr, hdupf, hucl, hfa2]
  · intro s aid d a₀ p hn ha₀m ha₀id hdp hp0 hfp
    have hfind : findAct s.activities aid = some a₀ := by
      rw [← ha₀id]
      exact findAct_of_mem_nodup hn ha₀m
    have hpa : p ≠ aid := by
      rintro rfl
      rw [hfind] at hfp
      cases hfp
    have htr : truthyId (some p) = true := by
      simp [truthyId, hp0]
    have hwccf : would_create_cycle s aid p = false := wcc_unresolved hp0 hpa hfp
    simp [update_activity, hfind, hdp, htr, hwccf, hfp]

theorem c10_parent_zero_truthiness_witness :
    (create_activity ⟨[], [⟨1, "A", none, 1⟩], [], [], []⟩ 2 ⟨"B", some 0, 1⟩ =
      (⟨[], [⟨1, "A", none, 1⟩, ⟨2, "B", some 0, 1⟩], [], [], []⟩,
        .ok ⟨2, "B", some 0, 1⟩)) ∧
    (create_activity ⟨[], [⟨1, "A", none, 1⟩], [], [], []⟩ 2 ⟨"B", some 5, 1⟩ =
      (⟨[], [⟨1, "A", none, 1⟩], [], [], []⟩, .error "parent activity not found")) ∧
    (∃ acts2, update_activity ⟨[], [⟨1, "A", none, 1⟩], [], [], []⟩ 1 ⟨"B", some 0, 1⟩ =
      (⟨[], acts2, [], [], []⟩, .ok (some ⟨1, "B", some 0, 1⟩))) ∧
    (update_activity ⟨[], [⟨1, "A", none, 1⟩], [], [], []⟩ 1 ⟨"B", some 5, 1⟩ =
      (⟨[], [⟨1, "A", none, 1⟩], [], [], []⟩, .error "parent activity not found")) := by
  refine ⟨?_, ?_, ?_, ?_⟩
  · exact c10_parent_zero_truthiness.1 _ 2 ⟨"B", some 0, 1⟩ rfl (by decide)
  · exact c10_parent_zero_truthiness.2.1 _ 2 ⟨"B", some 5, 1⟩ 5 rfl (by decide) rfl
  · exact c10_parent_zero_truthiness.2.2.1 _ 1 ⟨"B", some 0, 1⟩ ⟨1, "A", none, 1⟩
      (by decide) (by decide) (by decide) (by decide) rfl rfl (by decide)
  · exact c10_parent_zero_truthiness.2.2.2 _ 1 ⟨"B", some 5, 1⟩ ⟨1, "A", none, 1⟩ 5
      (by decide) (by decide) rfl rfl (by decide) rfl

/-- C6: the deletion guards.  delete_building on a building referenced by an
organization fails with the conflict error and changes nothing;
delete_activity fails likewise when the activity has an associated
organization or a child; delete_organization on a stored organization always
succeeds, removing the organization row and all of its phone rows. -/
theorem c6_deletion_guards :
    (∀ (s : Store) (bid : Nat) (b : Building),
      findBuilding s bid = some b →
      (∃ o ∈ s.organizations, o.building_id = bid) →
      delete_building s bid =
        (s, .error "cannot delete a building that has organizations")) ∧
    (∀ (s : Store) (aid : Nat) (a : Activity),
      findAct s.activities aid = some a →
      (∃ pr ∈ s.organization_activity, pr.2 = aid ∧
        ∃ o ∈ s.organizations, o.id = pr.1) →
      delete_activity s aid =
        (s, .error "cannot delete an activity that has organizations attached")) ∧
    (∀ (s : Store) (aid : Nat) (a : Activity),
      findAct s.activities aid = some a →
      s.organization_activity.filter (fun pr =>
        pr.2 == aid && s.organizations.any (fun o => o.id == pr.1)) = [] →
      (∃ c ∈ s.activities, c.parent_id = some aid) →
      delete_activity s aid =
        (s, .error "cannot delete an activity that has children")) ∧
    (∀ (s : Store) (oid : Nat) (o : Organization),
      o ∈ s.organizations → o.id = oid →
      (delete_organization s oid).2 = .ok true ∧
      (∀ o' ∈ (delete_organization s oid).1.organizations, o'.id ≠ oid) ∧
      (∀ ph, ph ∈ (delete_organization s oid).1.organization_phones ↔
        ph ∈ s.organization_phones ∧ ph.organization_id ≠ oid) ∧
      (delete_organization s oid).1.buildings = s.buildings ∧
      (delete_organization s oid).1.activities = s.activities) := by
  refine ⟨?_, ?_, ?_, ?_⟩
  · intro s bid b hfb ⟨o, ho, hob⟩
    have hmem : o ∈ s.organizations.filter (fun o => o.building_id == bid) :=
      List.mem_filter.mpr ⟨ho, by simp [hob]⟩
    have hpos : 0 < (s.organizations.filter (fun o => o.building_id == bid)).length :=
      List.length_pos.mpr (List.ne_nil_of_mem hmem)
    simp [delete_building, hfb, hpos]
  · intro s aid a hfa ⟨pr, hpr, hpr2, o, ho, hoid⟩
    have hmem : pr ∈ s.organization_activity.filter (fun pr =>
        pr.2 == aid && s.organizations.any (fun o => o.id == pr.1)) := by
      refine List.mem_filter.mpr ⟨hpr, ?_⟩
      simp only [Bool.and_eq_true, beq_iff_eq]
      exact ⟨hpr2, List.any_eq_true.mpr ⟨o, ho, by simp [hoid]⟩⟩
    have hpos : 0 < (s.organization_activity.filter (fun pr =>
        pr.2 == aid && s.organizations.any (fun o => o.id == pr.1))).length :=
      List.length_pos.mpr (List.ne_nil_of_mem hmem)
    simp [delete_activity, hfa, hpos]
  · intro s aid a hfa hempty ⟨c, hc, hcp⟩
    have hmem : c ∈ s.activities.filter (fun a => a.parent_id == some aid) :=
      List.mem_filter.mpr ⟨hc, by simp [hcp]⟩
    have hpos : 0 < (s.activities.filter (fun a => a.parent_id == some aid)).length :=
      List.length_pos.mpr (List.ne_nil_of_mem hmem)
    have hzero : (s.organization_activity.filter (fun pr =>
        pr.2 == aid && s.organizations.any (fun o => o.id == pr.1))).length = 0 := by
      rw [hempty]
      rfl
    simp [delete_activity, hfa, hzero, hpos]
  · intro s oid o ho hoid
    have hfind : (s.organizations.find? (fun o => o.id == oid)).isSome :=
      List.find?_isSome.mpr ⟨o, ho, by simp [hoid]⟩
    obtain ⟨o', ho'⟩ := Option.isSome_iff_exists.mp hfind
    refine ⟨?_, ?_, ?_, ?_, ?_⟩
    · simp [delete_organization, ho']
    · intro o'' ho''
      simp only [delete_organization, ho'] at ho''
      have := List.mem_filter.mp ho''
      simpa using this.2
    · intro ph
      simp only [delete_organization, ho']
      rw [List.mem_filter]
      simp
    · simp [delete_organization, ho']
    · simp [delete_organization, ho']

theorem c6_deletion_guards_witness :
    (delete_building ⟨[⟨1, "a", 0, 0⟩], [], [⟨1, "O", 1⟩], [], []⟩ 1 =
      (⟨[⟨1, "a", 0, 0⟩], [], [⟨1, "O", 1⟩], [], []⟩,
        .error "cannot delete a building that has organizations")) ∧
    (delete_activity ⟨[], [⟨1, "A", none, 1⟩], [⟨1, "O", 1⟩], [], [(1, 1)]⟩ 1 =
      (⟨[], [⟨1, "A", none, 1⟩], [⟨1, "O", 1⟩], [], [(1, 1)]⟩,
        .error "cannot delete an activity that has organizations attached")) ∧
    (delete_activity ⟨[], [⟨1, "A", none, 1⟩, ⟨2, "B", some 1, 2⟩], [], [], []⟩ 1 =
      (⟨[], [⟨1, "A", none, 1⟩, ⟨2, "B", some 1, 2⟩], [], [], []⟩,
        .error "cannot delete an activity that has children")) ∧
    ((delete_organization ⟨[], [], [⟨1, "O", 1⟩], [⟨1, 1, "p"⟩, ⟨2, 2, "q"⟩], []⟩ 1).2 =
      .ok true ∧
      ∀ o' ∈ (delete_organization
        ⟨[], [], [⟨1, "O", 1⟩], [⟨1, 1, "p"⟩, ⟨2, 2, "q"⟩], []⟩ 1).1.organizations,
        o'.id ≠ 1) := by
  refine ⟨?_, ?_, ?_, ?_⟩
  · exact c6_deletion_guards.1 _ 1 ⟨1, "a", 0, 0⟩ rfl ⟨⟨1, "O", 1⟩, by decide, rfl⟩
  · exact c6_deletion_guards.2.1 _ 1 ⟨1, "A", none, 1⟩ rfl
      ⟨(1, 1), by decide, rfl, ⟨1, "O", 1⟩, by decide, rfl⟩
  · exact c6_deletion_guards.2.2.1 _ 1 ⟨1, "A", none, 1⟩ rfl rfl
      ⟨⟨2, "B", some 1, 2⟩, by decide, rfl⟩
  · have h := c6_deletion_guards.2.2.2
      ⟨[], [], [⟨1, "O", 1⟩], [⟨1, 1, "p"⟩, ⟨2, 2, "q"⟩], []⟩ 1 ⟨1, "O", 1⟩
      (by decide) rfl
    exact ⟨h.1, h.2.1⟩

/-- C8: create_organization is not atomic.  With an existing building but an
activity id that does not resolve, the call fails with "one or more
activities not found", yet the bare organization row from the first commit
point remains persisted. -/
theorem c8_create_org_nonatomic :
    ∀ (s : Store) (newOrgId phoneIdBase : Nat) (d : OrganizationCreate)
      (b : Building) (i : Nat),
      NodupIds s.activities →
      findBuilding s d.building_id = some b →
      i ∈ d.activity_ids → findAct s.activities i = none →
      create_organization s newOrgId phoneIdBase d =
        ({ s with organizations := s.organizations ++ [⟨newOrgId, d.name, d.building_id⟩] },
          .error "one or more activities not found") := by
  intro s newOrgId phoneIdBase d b i hn hfb hi hfi
  have hne : d.activity_ids.isEmpty = false := by
    cases h : d.activity_ids with
    | nil =>
      rw [h] at hi
      cases hi
    | cons x xs => rfl
  have mm : ((s.activities.filter (fun a => d.activity_ids.contains a.id)).map
      (fun a => a.id)).Nodup :=
    List.Nodup.sublist (List.Sublist.map _ (List.filter_sublist _)) hn
  have hsub : (s.activities.filter (fun a => d.activity_ids.contains a.id)).map
      (fun a => a.id) ⊆ d.activity_ids.erase i := by
    intro x hx
    obtain ⟨a, ha, rfl⟩ := List.mem_map.mp hx
    obtain ⟨ham, hcon⟩ := List.mem_filter.mp ha
    have hmemids : a.id ∈ d.activity_ids := by simpa using hcon
    have hne2 : a.id ≠ i := findAct_eq_none_iff.mp hfi a ham
    exact (List.mem_erase_of_ne hne2).mpr hmemids
  have hle := (List.Nodup.subperm mm hsub).length_le
  rw [List.length_map] at hle
  have herase : (d.activity_ids.erase i).length = d.activity_ids.length - 1 :=
    List.length_erase_of_mem hi
  have hpos : 0 < d.activity_ids.length := List.length_pos.mpr (List.ne_nil_of_mem hi)
  have hlt : (s.activities.filter (fun a => d.activity_ids.contains a.id)).length <
      d.activity_ids.length := by omega
  have hfix : s.activities.filter (fun a => d.activity_ids.contains a.id) =
      s.activities.filter (fun a => decide (a.id ∈ d.activity_ids)) := by
    simp
  have hne3 : ¬ (s.activities.filter
      (fun a => decide (a.id ∈ d.activity_ids))).length = d.activity_ids.length := by
    rw [← hfix]
    exact Nat.ne_of_lt hlt
  simp [create_organization, hfb, hne, hne3]

theorem c8_create_org_nonatomic_witness :
    create_organization ⟨[⟨1, "a", 0, 0⟩], [], [], [], []⟩ 1 1 ⟨"O", 1, [], [9]⟩ =
      (⟨[⟨1, "a", 0, 0⟩], [], [⟨1, "O", 1⟩], [], []⟩,
        .error "one or more activities not found") :=
  c8_create_org_nonatomic ⟨[⟨1, "a", 0, 0⟩], [], [], [], []⟩ 1 1 ⟨"O", 1, [], [9]⟩
    ⟨1, "a", 0, 0⟩ 9 (by decide) rfl (by decide) rfl

/-- C9: the name filter of get_organizations_count does not escape the LIKE
wildcards, unlike search_organizations_by_name: on a store holding one
organization named "1000", the query "100%" is counted as a match (the
trailing % acts as a wildcard) while the listing's own escaped search
returns nothing. -/
theorem c9_count_vs_search_wildcards :
    get_organizations_count ⟨[], [], [⟨1, "1000", 7⟩], [], []⟩
        (some ⟨none, none, some "100%", false⟩) = 1 ∧
    search_organizations_by_name ⟨[], [], [⟨1, "1000", 7⟩], [], []⟩ "100%" 0 100 =
      [] := by
  constructor
  · rfl
  · rfl

/-! ## LIKE-pattern theory for the escaped name search -/

theorem likeMatches_percent (ps : List Char) (t : List Char) :
    likeMatches ('%' :: ps) t = true ↔ ∃ u, u <:+ t ∧ likeMatches ps u = true := by
  show (t.tails.any fun u => likeMatches ps u) = true ↔ _
  rw [List.any_eq_true]
  constructor
  · rintro ⟨u, hu, hl⟩
    exact ⟨u, (List.mem_tails u t).mp hu, hl⟩
  · rintro ⟨u, hu, hl⟩
    exact ⟨u, (List.mem_tails u t).mpr hu, hl⟩

theorem likeMatches_percent_nil (t : List Char) : likeMatches ['%'] t = true := by
  rw [likeMatches_percent]
  exact ⟨[], List.nil_suffix, rfl⟩

theorem likeMatches_esc (c : Char) (ps t : List Char) :
    likeMatches ('\\' :: c :: ps) t =
      match t with
      | [] => false
      | c2 :: t2 => (c2.toLower == c.toLower) && likeMatches ps t2 := by
  cases t <;> rfl

theorem likeMatches_lit (c : Char) (h1 : c ≠ '%') (h2 : c ≠ '_') (h3 : c ≠ '\\')
    (ps t : List Char) :
    likeMatches (c :: ps) t =
      match t with
      | [] => false
      | c2 :: t2 => (c2.toLower == c.toLower) && likeMatches ps t2 := by
  rw [likeMatches.eq_def]
  split
  · rename_i heq
    exact absurd heq (List.cons_ne_nil _ _)
  · rename_i heq
    exact absurd (List.cons.inj heq).1 h1
  · rename_i heq
    exact absurd (List.cons.inj heq).1 h2
  · rename_i heq
    exact absurd (List.cons.inj heq).1 h3
  · rename_i heq
    obtain ⟨rfl, rfl⟩ := List.cons.inj heq
    rfl

/-- The escaped pattern followed by a trailing % matches exactly the texts
whose lowercased form starts with the lowercased query. -/
theorem likeMatches_escape_core (qs : List Char) (hq : '\\' ∉ qs) :
    ∀ u, likeMatches (qs.flatMap escapeLikeChar ++ ['%']) u = true ↔
      ∃ w, u.map Char.toLower = qs.map Char.toLower ++ w := by
  induction qs with
  | nil =>
    intro u
    constructor
    · intro _
      exact ⟨u.map Char.toLower, rfl⟩
    · intro _
      exact likeMatches_percent_nil u
  | cons c cs ih =>
    intro u
    have hc : c ≠ '\\' := fun he => hq (he ▸ List.mem_cons_self c cs)
    have hcs : '\\' ∉ cs := fun hm => hq (List.mem_cons_of_mem _ hm)
    have hstep : ∀ (t : List Char),
        likeMatches ((c :: cs).flatMap escapeLikeChar ++ ['%']) t =
          match t with
          | [] => false
          | c2 :: t2 => (c2.toLower == c.toLower) &&
              likeMatches (cs.flatMap escapeLikeChar ++ ['%']) t2 := by
      intro t
      by_cases hesc : c = '%' ∨ c = '_'
      · have hsp : (c :: cs).flatMap escapeLikeChar ++ ['%'] =
            '\\' :: c :: (cs.flatMap escapeLikeChar ++ ['%']) := by
          simp [List.flatMap_cons, escapeLikeChar, hesc]
        rw [hsp, likeMatches_esc]
      · push_neg at hesc
        have hsp : (c :: cs).flatMap escapeLikeChar ++ ['%'] =
            c :: (cs.flatMap escapeLikeChar ++ ['%']) := by
          simp [List.flatMap_cons, escapeLikeChar, hesc.1, hesc.2]
        rw [hsp, likeMatches_lit c hesc.1 hesc.2 hc]
    cases u with
    | nil =>
      rw [hstep]
      simp
    | cons c2 t2 =>
      rw [hstep]
      simp only [Bool.and_eq_true, beq_iff_eq]
      rw [ih hcs t2]
      constructor
      · rintro ⟨hceq, w, hw⟩
        exact ⟨w, by simp [List.map_cons, hceq, hw]⟩
      · rintro ⟨w, hw⟩
        simp only [List.map_cons, List.cons_append] at hw
        obtain ⟨h1, h2⟩ := List.cons.inj hw
        exact ⟨h1, w, h2⟩

theorem exists_suffix_iff_infix (q t : List Char) :
    (∃ u, u <:+ t ∧ ∃ w, u.map Char.toLower = q.map Char.toLower ++ w) ↔
      q.map Char.toLower <:+: t.map Char.toLower := by
  constructor
  · rintro ⟨u, hu, w, hw⟩
    obtain ⟨pre, hpre⟩ := hu
    refine ⟨pre.map Char.toLower, w, ?_⟩
    rw [← hpre]
    simp [hw]
  · rintro ⟨s1, s2, hs⟩
    refine ⟨t.drop s1.length, List.drop_suffix _ _, s2, ?_⟩
    have hd : (t.map Char.toLower).drop s1.length = q.map Char.toLower ++ s2 := by
      rw [← hs, List.append_assoc, List.drop_left]
    rw [← List.map_drop] at hd
    exact hd

/-- The full search pattern matches exactly the names whose lowercased text
contains the lowercased query as a literal substring (no backslash in the
query: the service does not escape backslashes). -/
theorem like_pattern_iff_infix (q : String) (hq : '\\' ∉ q.data) (t : List Char) :
    likeMatches ('%' :: (escapeLike q ++ ['%'])) t = true ↔
      q.data.map Char.toLower <:+: t.map Char.toLower := by
  rw [likeMatches_percent, ← exists_suffix_iff_infix]
  constructor
  · rintro ⟨u, hu, hl⟩
    exact ⟨u, hu, (likeMatches_escape_core q.data hq u).mp hl⟩
  · rintro ⟨u, hu, hw⟩
    exact ⟨u, hu, (likeMatches_escape_core q.data hq u).mpr hw⟩

/-- C7: search_organizations_by_name escapes % and _ before the
case-insensitive match, so a query free of backslashes is matched as a
literal substring: over a full page the results are exactly the
organizations whose lowercased name contains the lowercased query text — in
particular "100%" matches only names containing the literal text "100%". -/
theorem c7_wildcard_escaping :
    ∀ (s : Store) (q : String), '\\' ∉ q.data →
      ∀ o : Organization,
        (o ∈ search_organizations_by_name s q 0 s.organizations.length ↔
          o ∈ s.organizations ∧
            q.data.map Char.toLower <:+: o.name.data.map Char.toLower) := by
  intro s q hq o
  unfold search_organizations_by_name
  rw [List.drop_zero, List.take_of_length_le (List.length_filter_le _ _),
    List.mem_filter]
  exact and_congr_right fun _ => like_pattern_iff_infix q hq o.name.data

theorem c7_wildcard_escaping_witness :
    ('\\' ∉ "100%".data) ∧
    ((⟨2, "A100%B", 7⟩ : Organization) ∈ search_organizations_by_name
      ⟨[], [], [⟨1, "a1000b", 7⟩, ⟨2, "A100%B", 7⟩], [], []⟩ "100%" 0 2) := by
  refine ⟨by decide, ?_⟩
  exact (c7_wildcard_escaping ⟨[], [], [⟨1, "a1000b", 7⟩, ⟨2, "A100%B", 7⟩], [], []⟩
    "100%" (by decide) ⟨2, "A100%B", 7⟩).mpr ⟨by decide, by decide⟩

/-- C4: in radius mode every organization returned by
geo_search_organizations resolves to a building whose exact distance to the
center is at most radius_km; the boundary is inclusive (a page member at
distance exactly radius_km is returned); and a candidate whose building
reference does not resolve is skipped by the narrowing filter. -/
theorem c4_radius_distance_bound :
    ∀ (cosRad : Rat → Rat) (dist : Rat → Rat → Rat → Rat → Rat) (s : Store)
      (g : GeoSearchSchema) (skip limit : Nat),
      radius_active g = true →
      (∀ o ∈ geo_search_organizations cosRad dist s g skip limit,
        ∃ b, findBuilding s o.building_id = some b ∧
          dist g.latitude g.longitude b.latitude b.longitude ≤ g.radius_km.getD 0) ∧
      (∀ o ∈ geoPrefilterPage cosRad s g skip limit, ∀ b,
        findBuilding s o.building_id = some b →
        dist g.latitude g.longitude b.latitude b.longitude ≤ g.radius_km.getD 0 →
        o ∈ geo_search_organizations cosRad dist s g skip limit) ∧
      (∀ o : Organization, findBuilding s o.building_id = none →
        o ∉ geo_search_organizations cosRad dist s g skip limit) := by
  intro cosRad dist s g skip limit hra
  have hres : geo_search_organizations cosRad dist s g skip limit =
      (geoPrefilterPage cosRad s g skip limit).filter (fun o =>
        match findBuilding s o.building_id with
        | some b =>
          decide (dist g.latitude g.longitude b.latitude b.longitude ≤
            g.radius_km.getD 0)
        | none => false) := by
    unfold geo_search_organizations
    rw [if_pos hra]
  refine ⟨?_, ?_, ?_⟩
  · intro o ho
    rw [hres] at ho
    obtain ⟨_, hb⟩ := List.mem_filter.mp ho
    revert hb
    cases hfb : findBuilding s o.building_id with
    | none =>
      intro hb
      cases hb
    | some b =>
      intro hb
      exact ⟨b, rfl, of_decide_eq_true hb⟩
  · intro o hp b hfb hle
    rw [hres]
    refine List.mem_filter.mpr ⟨hp, ?_⟩
    show (match findBuilding s o.building_id with
      | some b =>
        decide (dist g.latitude g.longitude b.latitude b.longitude ≤
          g.radius_km.getD 0)
      | none => false) = true
    rw [hfb]
    exact decide_eq_true hle
  · intro o hfb ho
    rw [hres] at ho
    have hb := (List.mem_filter.mp ho).2
    rw [hfb] at hb
    cases hb

theorem c4_radius_distance_bound_witness :
    radius_active ⟨0, 0, GeoSearchType.radius, some 1, none, none, none, none⟩ =
      true ∧
    (⟨1, "O", 5⟩ : Organization) ∉ geo_search_organizations (fun _ => 1)
      (fun _ _ _ _ => 0) ⟨[], [], [⟨1, "O", 5⟩], [], []⟩
      ⟨0, 0, GeoSearchType.radius, some 1, none, none, none, none⟩ 0 10 :=
  ⟨rfl, (c4_radius_distance_bound (fun _ => 1) (fun _ _ _ _ => 0)
    ⟨[], [], [⟨1, "O", 5⟩], [], []⟩
    ⟨0, 0, GeoSearchType.radius, some 1, none, none, none, none⟩ 0 10 rfl).2.2
    ⟨1, "O", 5⟩ rfl⟩

/-- C5: skip and limit are applied to the bounding-box candidate set before
the exact-distance filter — on a concrete store the returned page is empty
below the requested limit while a true match exists beyond the page — and in
rectangle mode no post-filter runs: the result is the paged store-level
bounds filter, whose candidates are exactly the organizations with a
resolved building inside the bounds. -/
theorem c5_pagination_before_narrowing :
    (geo_search_organizations (fun _ => 1) (fun _ _ blat _ => blat * 222)
        ⟨[⟨1, "x", 1/111, 0⟩, ⟨2, "y", 0, 0⟩], [], [⟨1, "P", 1⟩, ⟨2, "Q", 2⟩], [], []⟩
        ⟨0, 0, GeoSearchType.radius, some 1, none, none, none, none⟩ 0 1 = [] ∧
      (⟨2, "Q", 2⟩ : Organization) ∈ geoCandidates (fun _ => 1)
        ⟨[⟨1, "x", 1/111, 0⟩, ⟨2, "y", 0, 0⟩], [], [⟨1, "P", 1⟩, ⟨2, "Q", 2⟩], [], []⟩
        ⟨0, 0, GeoSearchType.radius, some 1, none, none, none, none⟩ ∧
      findBuilding ⟨[⟨1, "x", 1/111, 0⟩, ⟨2, "y", 0, 0⟩], [],
        [⟨1, "P", 1⟩, ⟨2, "Q", 2⟩], [], []⟩ 2 = some ⟨2, "y", 0, 0⟩ ∧
      ((0 : Rat) * 222 ≤ 1)) ∧
    (∀ (cosRad : Rat → Rat) (dist : Rat → Rat → Rat → Rat → Rat) (s : Store)
      (g : GeoSearchSchema) (skip limit : Nat),
      g.search_type = GeoSearchType.rectangle →
      geo_search_organizations cosRad dist s g skip limit =
        geoPrefilterPage cosRad s g skip limit ∧
      (∀ n sl e w, g.north_lat = some n → g.south_lat = some sl →
        g.east_lng = some e → g.west_lng = some w →
        ∀ o, (o ∈ geoCandidates cosRad s g ↔
          ∃ b, o ∈ s.organizations ∧ findBuilding s o.building_id = some b ∧
            sl ≤ b.latitude ∧ b.latitude ≤ n ∧ w ≤ b.longitude ∧
            b.longitude ≤ e))) := by
  constructor
  · have hra : radius_active
        ⟨0, 0, GeoSearchType.radius, some 1, none, none, none, none⟩ = true := rfl
    have hcand : geoCandidates (fun _ => 1)
        ⟨[⟨1, "x", 1/111, 0⟩, ⟨2, "y", 0, 0⟩], [], [⟨1, "P", 1⟩, ⟨2, "Q", 2⟩], [], []⟩
        ⟨0, 0, GeoSearchType.radius, some 1, none, none, none, none⟩ =
        [⟨1, "P", 1⟩, ⟨2, "Q", 2⟩] := by
      norm_num [geoCandidates, findBuilding, hra, List.filter, List.filterMap,
        List.find?]
    refine ⟨?_, ?_, rfl, by norm_num⟩
    · simp only [geo_search_organizations, geoPrefilterPage, hra, if_true, hcand]
      norm_num [List.filter, findBuilding, List.find?]
    · rw [hcand]
      simp
  · intro cosRad dist s g skip limit hst
    have hra : radius_active g = false := by
      unfold radius_active
      rw [hst]
      rfl
    constructor
    · simp only [geo_search_organizations, hra, Bool.false_eq_true, if_false]
    · intro n sl e w hn hsl he hw o
      simp only [geoCandidates, hra, Bool.false_eq_true, if_false, hst, hn, hsl,
        he, hw, beq_self_eq_true, if_true]
      constructor
      · intro ho
        obtain ⟨pr, hpr, hpreq⟩ := List.mem_map.mp ho
        obtain ⟨hprrows, hp⟩ := List.mem_filter.mp hpr
        obtain ⟨o', ho', hfo'⟩ := List.mem_filterMap.mp hprrows
        obtain ⟨b, hfb, hob⟩ := Option.map_eq_some'.mp hfo'
        obtain rfl : (o', b) = pr := hob
        obtain rfl : o' = o := hpreq
        simp only [Bool.and_eq_true, decide_eq_true_eq] at hp
        exact ⟨b, ho', hfb, hp.1.1.1, hp.1.1.2, hp.1.2, hp.2⟩
      · rintro ⟨b, ho, hfb, h1, h2, h3, h4⟩
        refine List.mem_map.mpr ⟨(o, b), ?_, rfl⟩
        refine List.mem_filter.mpr ⟨?_, ?_⟩
        · refine List.mem_filterMap.mpr ⟨o, ho, ?_⟩
          rw [hfb]
          rfl
        · simp only [Bool.and_eq_true, decide_eq_true_eq]
          exact ⟨⟨⟨h1, h2⟩, h3⟩, h4⟩

theorem c5_pagination_before_narrowing_witness :
    geo_search_organizations (fun _ => 1) (fun _ _ _ _ => 0) ⟨[], [], [], [], []⟩
        ⟨0, 0, GeoSearchType.rectangle, none, some 1, some 0, some 1, some 0⟩ 0 5 =
      geoPrefilterPage (fun _ => 1) ⟨[], [], [], [], []⟩
        ⟨0, 0, GeoSearchType.rectangle, none, some 1, some 0, some 1, some 0⟩ 0 5 :=
  (c5_pagination_before_narrowing.2 (fun _ => 1) (fun _ _ _ _ => 0)
    ⟨[], [], [], [], []⟩
    ⟨0, 0, GeoSearchType.rectangle, none, some 1, some 0, some 1, some 0⟩ 0 5
    rfl).1

end RestCatalog
